import Mathlib

/-
  Verification of the OpenMemory MCP memory-operations gateway.

  Shallow embedding of the relevant parts of:
    openmemory/api/app/mcp_server.py      (handlers add_memories, search_memory,
                                           list_memories, delete_all_memories)
    openmemory/api/app/models.py          (Memory, MemoryState, MemoryStatusHistory,
                                           MemoryAccessLog, AccessControl)
    openmemory/api/app/utils/memory.py    (get_memory_client, _test_qdrant_connection,
                                           _get_qdrant_config, _get_docker_host_url,
                                           _fix_ollama_urls)

  Conventions of the embedding:
  - UUIDs are modelled as natural numbers; uuid.uuid4 generation is passed in as an
    explicit id argument (fresh in reachable runs, which models the practical
    collision-freeness of version-4 UUIDs).
  - datetime.datetime.now is passed in as a natural-number timestamp; the source
    reads the clock once per handler call region, so one timestamp per call is used
    where the source uses one, and one per call site where it reads again.
  - The relational session is a value of type Db; a handler returns the post-commit
    Db together with the JSON payload it serialises, modelled as a structure with
    one field per JSON key (Option for keys that are absent in some branches).
  - Calls into external services (mem0 client, qdrant, requests) are modelled by
    explicit outcome parameters: an Except value for a call that can raise, a Bool
    for a probe that reports success.
-/

/-- UUID values, modelled as naturals. -/
abbrev Uuid := Nat

/-- models.py MemoryState: the four lifecycle states of a memory row. -/
inductive MemoryState where
  | active
  | paused
  | archived
  | deleted
deriving DecidableEq, Repr

/-- models.py Memory: one row of the memories table (columns the handlers touch). -/
structure Memory where
  id : Uuid
  user_id : Uuid
  app_id : Uuid
  content : String
  state : MemoryState
  created_at : Nat
  updated_at : Option Nat
  archived_at : Option Nat
  deleted_at : Option Nat
deriving DecidableEq, Repr

/-- models.py MemoryStatusHistory: one append-only state-transition row.
old_state is carried as an Option because the handlers pass None for the
synthetic creation transition of the simple-response branch. -/
structure MemoryStatusHistory where
  memory_id : Uuid
  changed_by : Uuid
  old_state : Option MemoryState
  new_state : MemoryState
  changed_at : Nat
deriving DecidableEq, Repr

/-- models.py MemoryAccessLog: write-only audit sink (the fields the handlers set). -/
structure MemoryAccessLog where
  memory_id : Uuid
  app_id : Uuid
  access_type : String
  method : Option String
deriving DecidableEq, Repr

/-- models.py AccessControl: one allow/deny rule row.  A None subject_id or
object_id is a wildcard over that type. -/
structure AccessControl where
  subject_type : String
  subject_id : Option Uuid
  object_type : String
  object_id : Option Uuid
  effect : String
deriving DecidableEq, Repr

/-- The relational store as the handlers see it: the four tables they touch.
access_controls is consumed read-only. -/
structure Db where
  memories : List Memory
  history : List MemoryStatusHistory
  access_logs : List MemoryAccessLog
  access_controls : List AccessControl
deriving DecidableEq, Repr

/-- The empty database carrying a fixed rule set (rules are never written by the
handlers). -/
def initDb (rules : List AccessControl) : Db :=
  { memories := [], history := [], access_logs := [], access_controls := rules }

/-- True when a rule applies to the pair (calling app, memory): the subject matches
the app exactly or by wildcard, and the object matches the memory exactly or by
wildcard. -/
def rule_matches (r : AccessControl) (app_id : Uuid) (memory_id : Uuid) : Bool :=
  r.subject_type == "app" &&
  (r.subject_id == none || r.subject_id == some app_id) &&
  r.object_type == "memory" &&
  (r.object_id == none || r.object_id == some memory_id)

/-- Modelled from the spec: the body of the Access Control Evaluator lives in
app/utils/permissions.py, which is not among the inspected sources (only its
caller mcp_server.py is).  Per spec section 4.2, the evaluator gathers all rules
matching the (subject, object) pair, denies if any matching rule has effect
deny, allows if any matching rule has effect allow, and otherwise falls back to
the default-allow policy the spec assumes. -/
def evaluate_access (rules : List AccessControl) (app_id : Uuid) (memory_id : Uuid) : Bool :=
  let ms := rules.filter (fun r => rule_matches r app_id memory_id)
  if ms.any (fun r => r.effect == "deny") then false
  else if ms.any (fun r => r.effect == "allow") then true
  else true

/-- Modelled from the spec: app/utils/permissions.check_memory_access_permissions
is not among the inspected sources.  Per the spec, the accessible set consumed by
the delete path contains only non-deleted records (section 4.3: bulkDelete flips
every id currently non-deleted; section 4.4: flips every accessible, non-deleted
record; section 8: deleteAll is idempotent), and visibility is decided by the
rule evaluator of section 4.2.  So the check is: the record is not tombstoned,
and the evaluator allows the (calling app, memory) pair. -/
def check_memory_access_permissions (db : Db) (memory : Memory) (app_id : Uuid) : Bool :=
  if memory.state = MemoryState.deleted then false
  else evaluate_access db.access_controls app_id memory.id

/-- Python truthiness of an optional string: None and the empty string are falsy
(contextvar get(None) yields None when unset; the guards are of the form
if not uid). -/
def str_falsy (s : Option String) : Bool :=
  match s with
  | none => true
  | some s => s == ""

/-- Whitespace in the sense of str.strip (the ascii whitespace the handlers can
meet in practice). -/
def is_ws (c : Char) : Bool :=
  c == ' ' || c == '\t' || c == '\n' || c == '\r'

/-- True exactly when not text or not text.strip() is true in Python: the
string is empty or consists of whitespace only. -/
def blank_string (s : String) : Bool :=
  s == "" || s.data.all is_ws

/-- Non-overlapping left-to-right replacement of a nonempty pattern, the
semantics of str.replace.  The fuel argument (instantiated with the length of
the subject) keeps the recursion structural, so the definition evaluates inside
the kernel. -/
def replace_chars : Nat → List Char → List Char → List Char → List Char
  | 0, s, _, _ => s
  | _ + 1, [], _, _ => []
  | fuel + 1, c :: rest, pat, rep =>
    if pat ≠ [] && pat.isPrefixOf (c :: rest) then
      rep ++ replace_chars fuel ((c :: rest).drop pat.length) pat rep
    else
      c :: replace_chars fuel rest pat rep

/-- str.replace on strings (nonempty pattern). -/
def py_replace (s pat rep : String) : String :=
  String.mk (replace_chars s.data.length s.data pat.data rep.data)

/-- True when pat occurs as a substring of s: the Python in operator on
strings. -/
def contains_chars : List Char → List Char → Bool
  | [], pat => pat.isEmpty
  | c :: rest, pat => pat.isPrefixOf (c :: rest) || contains_chars rest pat

/-- The Python expression pat in s on strings. -/
def contains_sub (s pat : String) : Bool :=
  contains_chars s.data pat.data

/-- The characters before the first colon: split(sep)[0] for sep a colon. -/
def before_colon : List Char → List Char
  | [] => []
  | c :: rest => if c == ':' then [] else c :: before_colon rest

/-- The characters after the first colon, or none when the string has no
colon: the second component of split(sep, 1) for sep a colon. -/
def after_colon : List Char → Option (List Char)
  | [] => none
  | c :: rest => if c == ':' then some rest else after_colon rest

/-- Parse a nonempty all-digit string the way int() accepts the port values
that occur here. -/
def parse_nat : List Char → Option Nat
  | [] => none
  | cs =>
    if cs.all (fun c => 48 ≤ c.toNat && c.toNat ≤ 57) then
      some (cs.foldl (fun acc c => acc * 10 + (c.toNat - 48)) 0)
    else none

/-- str.lower restricted to ascii, as applied to the qdrant url sentinel
values. -/
def py_lower (s : String) : String :=
  String.mk (s.data.map Char.toLower)

/-- str.startswith via the character list. -/
def starts_with (s pat : String) : Bool :=
  pat.data.isPrefixOf s.data

/-- Update the first element of the list whose id matches, leaving the rest
unchanged.  This is the effect of mutating the object returned by
db.query(Memory).filter(Memory.id == mid).first(). -/
def updateById (l : List Memory) (mid : Uuid) (f : Memory → Memory) : List Memory :=
  match l with
  | [] => []
  | m :: rest => if m.id == mid then f m :: rest else m :: updateById rest mid f

/-- One element of the results array of a mem0 add() response: the memory id the
handler ends up using (either parsed from the result or freshly generated when
the result carries no id), the optional event tag, and the optional derived
content (result.get(memory, text) falls back to the request text). -/
structure ResultItem where
  rid : Uuid
  event : Option String
  mem : Option String
deriving DecidableEq, Repr

/-- The three response shapes add_memories distinguishes: a dict with a results
key, some other dict, and a non-dict value. -/
inductive Mem0Response where
  | results (items : List ResultItem)
  | simpleDict
  | nonDict
deriving DecidableEq, Repr

/-- One element of the memories array in the add_memories success payload. -/
structure AddedItem where
  id : Uuid
  content : String
  event : String
deriving DecidableEq, Repr

/-- The JSON payload add_memories serialises; keys absent in a branch are none. -/
structure AddResponse where
  success : Bool
  error : Option String
  message : Option String
  memories : List AddedItem
  memory : Option (Uuid × String)
deriving DecidableEq, Repr

/-- Validation or unavailability failure payload of add_memories. -/
def addError (msg : String) : AddResponse :=
  { success := false, error := some msg, message := none, memories := [], memory := none }

/-- Processing of one element of the results array in add_memories
(mcp_server.py lines 125-179).  For an ADD event the memory is created active or
reactivated in place and one history row is appended; the source computes the
rows old_state as MemoryState.deleted if memory else None, and the local
variable memory is always set by that point (it was just assigned in both arms
of the preceding if), so the recorded old_state is always deleted.  For a DELETE
event on a present memory the state is flipped to deleted, deleted_at is set,
and one history row with the hardcoded pair (active, deleted) is appended; an
absent memory is a no-op. -/
def apply_add_event (user_pk app_pk : Uuid) (text : String) (now : Nat)
    (st : Db × List AddedItem) (item : ResultItem) : Db × List AddedItem :=
  let db := st.1
  let added := st.2
  let found := db.memories.find? (fun m => m.id == item.rid)
  if item.event == some "ADD" then
    let memories1 :=
      match found with
      | none =>
        db.memories ++ [{ id := item.rid, user_id := user_pk, app_id := app_pk,
                          content := item.mem.getD text, state := MemoryState.active,
                          created_at := now, updated_at := some now,
                          archived_at := none, deleted_at := none }]
      | some _ =>
        updateById db.memories item.rid (fun m =>
          { m with state := MemoryState.active, content := item.mem.getD text,
                   updated_at := some now })
    let row : MemoryStatusHistory :=
      { memory_id := item.rid, changed_by := user_pk,
        old_state := some MemoryState.deleted, new_state := MemoryState.active,
        changed_at := now }
    ({ db with memories := memories1, history := db.history ++ [row] },
     added ++ [{ id := item.rid, content := item.mem.getD text, event := "ADD" }])
  else if item.event == some "DELETE" then
    match found with
    | some _ =>
      let memories1 :=
        updateById db.memories item.rid (fun m =>
          { m with state := MemoryState.deleted, deleted_at := some now })
      let row : MemoryStatusHistory :=
        { memory_id := item.rid, changed_by := user_pk,
          old_state := some MemoryState.active, new_state := MemoryState.deleted,
          changed_at := now }
      ({ db with memories := memories1, history := db.history ++ [row] },
       added ++ [{ id := item.rid, content := item.mem.getD text, event := "DELETE" }])
    | none => (db, added)
  else (db, added)

/-- mcp_server.add_memories.  Arguments beyond the tool parameter text:
uid and client_name are the contextvar values (None when unset); client_available
is whether get_memory_client_safe returned a client; user_pk and app_pk are the
primary keys resolved by get_user_and_app; app_is_active is the apps is_active
column; response is the shape-tagged outcome of memory_client.add; gen_id is the
uuid4 value drawn in the branches that generate an id; now is the clock. -/
def add_memories (uid client_name : Option String) (text : String)
    (client_available : Bool) (user_pk app_pk : Uuid) (app_is_active : Bool)
    (response : Mem0Response) (gen_id : Uuid) (now : Nat) (db : Db) :
    Db × AddResponse :=
  if str_falsy uid then (db, addError "user_id not provided")
  else if str_falsy client_name then (db, addError "client_name not provided")
  else if blank_string text then
    (db, addError "text is required and cannot be empty")
  else if !client_available then
    (db, addError "Memory system is currently unavailable. Please try again later.")
  else if !app_is_active then
    (db, addError "App is currently paused on OpenMemory. Cannot create new memories.")
  else
    match response with
    | Mem0Response.results items =>
      let folded := items.foldl (apply_add_event user_pk app_pk text now) (db, [])
      (folded.1,
       { success := true, error := none,
         message := some "Successfully processed memory operations",
         memories := folded.2, memory := none })
    | Mem0Response.simpleDict =>
      let mem : Memory :=
        { id := gen_id, user_id := user_pk, app_id := app_pk, content := text,
          state := MemoryState.active, created_at := now, updated_at := some now,
          archived_at := none, deleted_at := none }
      let row : MemoryStatusHistory :=
        { memory_id := gen_id, changed_by := user_pk, old_state := none,
          new_state := MemoryState.active, changed_at := now }
      ({ db with memories := db.memories ++ [mem], history := db.history ++ [row] },
       { success := true, error := none, message := some "Memory added successfully",
         memories := [], memory := some (gen_id, text) })
    | Mem0Response.nonDict =>
      let mem : Memory :=
        { id := gen_id, user_id := user_pk, app_id := app_pk, content := text,
          state := MemoryState.active, created_at := now, updated_at := some now,
          archived_at := none, deleted_at := none }
      ({ db with memories := db.memories ++ [mem] },
       { success := true, error := none,
         message := some "Memory added successfully (unknown response format)",
         memories := [], memory := some (gen_id, text) })

/-- One raw hit of the memory-client search path as the handler sees it:
whether the element is a dict, its optional id field (some none when the id
string fails uuid parsing, some (some u) when it parses), and its score. -/
structure SearchHit where
  isDict : Bool
  idField : Option (Option Uuid)
  score : Option Nat
deriving DecidableEq, Repr

/-- The shape of a successful memory_client.search result: a dict with a
results key, a bare list, or anything else (treated as no results). -/
inductive PrimaryResult where
  | dictResults (hits : List SearchHit)
  | listShape (hits : List SearchHit)
  | otherShape
deriving DecidableEq, Repr

/-- One point of the direct qdrant query after the handler reshapes it into a
dict: the id (none when the string fails uuid parsing in the logging loop),
the payload data, and the score. -/
structure QdrantEntry where
  pid : Option Uuid
  data : String
  score : Nat
deriving DecidableEq, Repr

/-- Outcomes of the external calls search_memory makes: the primary
memory_client.search call, whether the client exposes vector_store and
embedding_model attributes, and the direct qdrant path (embedding plus
query_points plus reshaping, any of which can raise). -/
structure SearchEnv where
  primary : Except String PrimaryResult
  has_vector_attrs : Bool
  secondary : Except String (List QdrantEntry)
deriving Repr

/-- An element of the results array search_memory returns: either a raw hit
forwarded from the memory client or a dict built from a qdrant point. -/
inductive SResult where
  | fromClient (h : SearchHit)
  | fromQdrant (q : QdrantEntry)
deriving DecidableEq, Repr

/-- The JSON payload search_memory serialises; keys absent in a branch are none. -/
structure SearchResponse where
  error : Option String
  results : List SResult
  query : Option String
  count : Option Nat
  method : Option String
deriving DecidableEq, Repr

/-- Validation or unavailability failure payload of search_memory: only error
and an empty results array. -/
def searchError (msg : String) : SearchResponse :=
  { error := some msg, results := [], query := none, count := none, method := none }

/-- mcp_server.search_memory.  The secondary path reads user memories and the
access rules to build the qdrant filter; that computation writes nothing, and
the backend answer it conditions is abstracted into env.secondary.  Every
surfaced hit with a parsable id gets one access-log row. -/
def search_memory (uid client_name : Option String) (query : String)
    (client_available : Bool) (user_pk app_pk : Uuid) (env : SearchEnv)
    (db : Db) : Db × SearchResponse :=
  if str_falsy uid then (db, searchError "user_id not provided")
  else if str_falsy client_name then (db, searchError "client_name not provided")
  else if blank_string query then
    (db, searchError "query is required and cannot be empty")
  else if !client_available then
    (db, searchError "Memory system is currently unavailable. Please try again later.")
  else
    match env.primary with
    | Except.ok pr =>
      let search_results :=
        match pr with
        | PrimaryResult.dictResults hits => hits
        | PrimaryResult.listShape hits => hits
        | PrimaryResult.otherShape => []
      let logs := search_results.filterMap (fun h =>
        if h.isDict then
          match h.idField with
          | some (some u) =>
            some { memory_id := u, app_id := app_pk, access_type := "search",
                   method := some "memory_client" }
          | _ => none
        else none)
      ({ db with access_logs := db.access_logs ++ logs },
       { error := none, results := search_results.map SResult.fromClient,
         query := some query, count := some search_results.length,
         method := some "memory_client" })
    | Except.error search_error =>
      let fallback : SearchResponse :=
        { error := some ("Search failed: " ++ search_error), results := [],
          query := some query, count := some 0, method := some "fallback" }
      if env.has_vector_attrs then
        match env.secondary with
        | Except.ok pts =>
          let logs := pts.filterMap (fun p =>
            match p.pid with
            | some u =>
              some { memory_id := u, app_id := app_pk, access_type := "search",
                     method := some "direct_qdrant" }
            | none => none)
          ({ db with access_logs := db.access_logs ++ logs },
           { error := none, results := pts.map SResult.fromQdrant,
             query := some query, count := some pts.length,
             method := some "direct_qdrant" })
        | Except.error _ => (db, fallback)
      else (db, fallback)

/-- One element of the raw listing memory_client.get_all returns: whether it is
a dict, its optional id field (some none when unparsable), and its hash. -/
structure MItem where
  isDict : Bool
  idField : Option (Option Uuid)
  hash : Option String
deriving DecidableEq, Repr

/-- The two shapes list_memories distinguishes for the raw listing: a dict with
a results key, or a bare iterable. -/
inductive GetAllResp where
  | dictResults (items : List MItem)
  | iterable (items : List MItem)
deriving DecidableEq, Repr

/-- The JSON payload list_memories serialises. -/
structure ListResponse where
  error : Option String
  memories : List MItem
  count : Option Nat
deriving DecidableEq, Repr

/-- Validation or unavailability failure payload of list_memories. -/
def listError (msg : String) : ListResponse :=
  { error := some msg, memories := [], count := none }

/-- mcp_server.list_memories.  The dict-results branch keeps an item when its
parsed id is among the precomputed accessible ids; the bare branch re-queries
the row for each item and checks permissions directly.  Items without an id,
with an unparsable id, or (in the bare branch) that are not dicts are skipped.
Each kept item gets one access-log row. -/
def list_memories (uid client_name : Option String) (client_available : Bool)
    (user_pk app_pk : Uuid) (resp : GetAllResp) (db : Db) : Db × ListResponse :=
  if str_falsy uid then (db, listError "user_id not provided")
  else if str_falsy client_name then (db, listError "client_name not provided")
  else if !client_available then
    (db, listError "Memory system is currently unavailable. Please try again later.")
  else
    let user_memories := db.memories.filter (fun m => m.user_id == user_pk)
    let accessible :=
      (user_memories.filter (fun m => check_memory_access_permissions db m app_pk)).map
        (fun m => m.id)
    let step := fun (st : List MemoryAccessLog × List MItem) (item : MItem) =>
      match resp with
      | GetAllResp.dictResults _ =>
        match item.idField with
        | some (some u) =>
          if accessible.contains u then
            (st.1 ++ [{ memory_id := u, app_id := app_pk, access_type := "list",
                        method := none }], st.2 ++ [item])
          else st
        | _ => st
      | GetAllResp.iterable _ =>
        if item.isDict then
          match item.idField with
          | some (some u) =>
            match db.memories.find? (fun m => m.id == u) with
            | some mrow =>
              if check_memory_access_permissions db mrow app_pk then
                (st.1 ++ [{ memory_id := u, app_id := app_pk, access_type := "list",
                            method := none }], st.2 ++ [item])
              else st
            | none => st
          | _ => st
        else st
    let items :=
      match resp with
      | GetAllResp.dictResults items => items
      | GetAllResp.iterable items => items
    let folded := items.foldl step ([], [])
    ({ db with access_logs := db.access_logs ++ folded.1 },
     { error := none, memories := folded.2, count := some folded.2.length })

/-- The JSON payload delete_all_memories serialises. -/
structure DeleteAllResponse where
  success : Bool
  error : Option String
  message : Option String
  deleted_count : Option Nat
deriving DecidableEq, Repr

/-- Validation or unavailability failure payload of delete_all_memories. -/
def deleteAllError (msg : String) : DeleteAllResponse :=
  { success := false, error := some msg, message := none, deleted_count := none }

/-- The per-id body of the authoritative-state loop of delete_all_memories
(mcp_server.py lines 573-597): look the row up, flip it to deleted, set
deleted_at, append one history row with the hardcoded pair (active, deleted)
and one access-log row; an absent row contributes nothing. -/
def delete_all_flip (user_pk app_pk : Uuid) (now : Nat) (db : Db) (memory_id : Uuid) : Db :=
  match db.memories.find? (fun m => m.id == memory_id) with
  | some _ =>
    let memories1 :=
      updateById db.memories memory_id (fun m =>
        { m with state := MemoryState.deleted, deleted_at := some now })
    let row : MemoryStatusHistory :=
      { memory_id := memory_id, changed_by := user_pk,
        old_state := some MemoryState.active, new_state := MemoryState.deleted,
        changed_at := now }
    let log : MemoryAccessLog :=
      { memory_id := memory_id, app_id := app_pk, access_type := "delete_all",
        method := none }
    { db with memories := memories1, history := db.history ++ [row],
              access_logs := db.access_logs ++ [log] }
  | none => db

/-- mcp_server.delete_all_memories.  The accessible set is computed once before
any mutation.  The per-id vector-backend deletions only feed a local counter the
source never returns (vector_delete_ok records which ones would succeed; partial
failures are logged and ignored), so the parameter does not influence the result.
The returned deleted_count is len(accessible_memory_ids). -/
def delete_all_memories (uid client_name : Option String) (client_available : Bool)
    (user_pk app_pk : Uuid) (vector_delete_ok : Uuid → Bool) (now : Nat)
    (db : Db) : Db × DeleteAllResponse :=
  if str_falsy uid then (db, deleteAllError "user_id not provided")
  else if str_falsy client_name then (db, deleteAllError "client_name not provided")
  else if !client_available then
    (db, deleteAllError "Memory system is currently unavailable. Please try again later.")
  else
    let user_memories := db.memories.filter (fun m => m.user_id == user_pk)
    let accessible :=
      (user_memories.filter (fun m => check_memory_access_permissions db m app_pk)).map
        (fun m => m.id)
    let db1 := accessible.foldl (delete_all_flip user_pk app_pk now) db
    (db1,
     { success := true, error := none,
       message := some "Successfully deleted memories",
       deleted_count := some accessible.length })

/-- The environment _get_docker_host_url reads: the OLLAMA_HOST variable (None
when unset), whether /.dockerenv exists, whether host.docker.internal resolves,
and the default-route gateway parsed from /proc/net/route (None when the file is
missing, has no default route, or parsing raises). -/
structure DockerEnv where
  ollama_host : Option String
  in_docker : Bool
  hdi_resolvable : Bool
  gateway : Option String
deriving DecidableEq, Repr

/-- Python truthiness filter for an optional string value. -/
def opt_truthy (o : Option String) : Option String :=
  match o with
  | some s => if s == "" then none else some s
  | none => none

/-- The host extraction applied to OLLAMA_HOST:
replace http and https scheme markers by nothing, then take the part before the
first colon. -/
def strip_host (s : String) : String :=
  String.mk (before_colon ((py_replace (py_replace s "http://" "") "https://" "").data))

/-- utils/memory._get_docker_host_url.  The OLLAMA_HOST override is consulted
before the Docker detection; inside Docker the candidate list collects the DNS
alias and the gateway in that order and falls back to 172.17.0.1 when empty; the
first candidate is returned. -/
def get_docker_host_url (e : DockerEnv) : String :=
  match opt_truthy e.ollama_host with
  | some h => strip_host h
  | none =>
    if !e.in_docker then "localhost"
    else
      let c1 : List String := if e.hdi_resolvable then ["host.docker.internal"] else []
      let c2 : List String :=
        match e.gateway with
        | some gw => c1 ++ [gw]
        | none => c1
      let c3 : List String := if c2.isEmpty then ["172.17.0.1"] else c2
      c3.headD "172.17.0.1"

/-- Modelled from the spec (for the refinement comparison only): the ordered
fallback as the spec words it — explicit override variable, else internal DNS
alias when resolvable, else default-route gateway, else the well-known fallback
address. -/
def ordered_fallback_host (e : DockerEnv) : String :=
  match opt_truthy e.ollama_host with
  | some h => strip_host h
  | none =>
    if e.hdi_resolvable then "host.docker.internal"
    else
      match e.gateway with
      | some gw => gw
      | none => "172.17.0.1"

/-- The part of an llm or embedder section _fix_ollama_urls inspects: the inner
config dict when present, carrying the optional ollama_base_url key. -/
structure OllamaCfg where
  ollama_base_url : Option String
deriving DecidableEq, Repr

/-- An llm or embedder provider section: the provider name and the optional
inner config dict. -/
structure ProviderSection where
  provider : String
  config : Option OllamaCfg
deriving DecidableEq, Repr

/-- utils/memory._fix_ollama_urls.  A section without an inner config dict is
returned unchanged; a missing ollama_base_url gets the host.docker.internal
default; a loopback url is rewritten with the docker host unless that host is
localhost. -/
def fix_ollama_urls (e : DockerEnv) (sec : ProviderSection) : ProviderSection :=
  match sec.config with
  | none => sec
  | some oc =>
    match oc.ollama_base_url with
    | none => { sec with config := some { ollama_base_url := some "http://host.docker.internal:11434" } }
    | some url =>
      if contains_sub url "localhost" || contains_sub url "127.0.0.1" then
        let docker_host := get_docker_host_url e
        if docker_host != "localhost" then
          let new_url := py_replace (py_replace url "localhost" docker_host) "127.0.0.1" docker_host
          { sec with config := some { ollama_base_url := some new_url } }
        else sec
      else sec

/-- The qdrant vector-store configuration _get_qdrant_config builds: either a
url-based (cloud) or host/port-based (local) stanza. -/
structure QdrantCfg where
  url : Option String
  api_key : Option String
  host : Option String
  port : Option Nat
  collection_name : String
deriving DecidableEq, Repr

/-- The environment variables _get_qdrant_config reads. -/
structure QdrantEnvVars where
  qdrant_url : Option String
  qdrant_api_key : Option String
  qdrant_collection : Option String
deriving DecidableEq, Repr

/-- utils/memory._get_qdrant_config.  Returns none when qdrant is disabled via
the environment; a cloud stanza when url and api key are both set; a local
stanza otherwise.  For a host:port value the port must parse as an integer —
int(port) raises on a malformed value, modelled as the error case of the
Except (the caller catches everything). -/
def get_qdrant_config (e : QdrantEnvVars) : Except Unit (Option QdrantCfg) :=
  let qdrant_url := (e.qdrant_url).getD ""
  let qdrant_api_key := (e.qdrant_api_key).getD ""
  let qdrant_collection := (e.qdrant_collection).getD "openmemory"
  if py_lower qdrant_url == "disabled" || py_lower qdrant_url == "false"
      || py_lower qdrant_url == "off" then
    Except.ok none
  else if qdrant_url != "" && qdrant_api_key != "" then
    let full_url :=
      if starts_with qdrant_url "http://" || starts_with qdrant_url "https://" then qdrant_url
      else "https://" ++ qdrant_url
    Except.ok (some { url := some full_url, api_key := some qdrant_api_key,
                      host := none, port := none, collection_name := qdrant_collection })
  else if qdrant_url != "" then
    if starts_with qdrant_url "http://" || starts_with qdrant_url "https://" then
      Except.ok (some { url := some qdrant_url, api_key := none,
                        host := none, port := none, collection_name := qdrant_collection })
    else
      match after_colon qdrant_url.data with
      | some portChars =>
        let host := String.mk (before_colon qdrant_url.data)
        match parse_nat portChars with
        | some p =>
          Except.ok (some { url := none, api_key := none, host := some host,
                            port := some p, collection_name := qdrant_collection })
        | none => Except.error ()
      | none =>
        Except.ok (some { url := none, api_key := none, host := some qdrant_url,
                          port := some 6333, collection_name := qdrant_collection })
  else
    Except.ok (some { url := none, api_key := none, host := some "mem0_store",
                      port := some 6333, collection_name := qdrant_collection })

/-- The merged effective mem0 configuration: llm and embedder sections plus the
optional vector store stanza.  The api-key resolution and custom instructions do
not alter which of these stanzas are present and are not separately tracked. -/
structure Mem0Config where
  llm : ProviderSection
  embedder : ProviderSection
  vector_store : Option QdrantCfg
deriving DecidableEq, Repr

/-- utils/memory.get_default_memory_config: openai llm and embedder defaults,
with the qdrant stanza included when _get_qdrant_config yields one. -/
def get_default_memory_config (e : QdrantEnvVars) : Except Unit Mem0Config := do
  let qc ← get_qdrant_config e
  Except.ok { llm := { provider := "openai", config := some { ollama_base_url := none } },
              embedder := { provider := "openai", config := some { ollama_base_url := none } },
              vector_store := qc }

/-- The row of the configs table with key main, as get_memory_client consumes
it: optional llm and embedder overrides (custom instructions are not tracked). -/
structure DbMainCfg where
  llm : Option ProviderSection
  embedder : Option ProviderSection
deriving DecidableEq, Repr

/-- The process-wide cached session of utils/memory.py: the built client and
the hash of the configuration it was built from.  The md5 hash of the
canonically serialised config is modelled by the config value itself, so hash
equality is config equality; the client is likewise represented by the config
it was built from. -/
structure ClientState where
  client : Option Mem0Config
  config_hash : Option Mem0Config
deriving DecidableEq, Repr

/-- The session state after reset_memory_client (and at process start). -/
def resetClientState : ClientState := { client := none, config_hash := none }

/-- The environment and external behaviour get_memory_client runs against:
the qdrant environment variables, the docker environment for the ollama url
rewrite, the configs-table read outcome (error when the read raises, ok none
when no row exists), the connectivity-probe outcome, and which configurations
Memory.from_config accepts. -/
structure ClientEnv where
  qdrant_env : QdrantEnvVars
  docker : DockerEnv
  db_main_row : Except Unit (Option DbMainCfg)
  probe_ok : Bool
  build_ok : Mem0Config → Bool

/-- utils/memory._test_qdrant_connection: recomputes the qdrant config, answers
false when there is none, and otherwise reports the outcome of the bounded
timeout GET against the collections endpoint (any exception inside the try is a
false). -/
def test_qdrant_connection (env : ClientEnv) : Bool :=
  match get_qdrant_config env.qdrant_env with
  | Except.ok (some _) => env.probe_ok
  | _ => false

/-- The configs-table overlay step of get_memory_client: when the main row was
read and carries llm or embedder sections, they replace the defaults, with the
ollama url fix applied when the provider is ollama; a read failure keeps the
defaults. -/
def merge_db_overrides (docker : DockerEnv) (row? : Except Unit (Option DbMainCfg))
    (cfg0 : Mem0Config) : Mem0Config :=
  match row? with
  | Except.error _ => cfg0
  | Except.ok none => cfg0
  | Except.ok (some row) =>
    let c1 :=
      match row.llm with
      | some l =>
        { cfg0 with llm := if l.provider == "ollama" then fix_ollama_urls docker l else l }
      | none => cfg0
    match row.embedder with
    | some em =>
      { c1 with embedder :=
          if em.provider == "ollama" then fix_ollama_urls docker em else em }
    | none => c1

/-- utils/memory.get_memory_client.  Builds the default config, overlays the llm
and embedder sections from the configs table when present (applying the ollama
url fix when the provider is ollama), drops the vector store stanza when the
connectivity probe fails, and rebuilds the client when none is cached or the
config hash changed; a failed build clears the cache and yields none, and any
raised error (such as a malformed qdrant port) is caught by the surrounding
try and yields none. -/
def get_memory_client (env : ClientEnv) (st : ClientState) :
    ClientState × Option Mem0Config :=
  match get_default_memory_config env.qdrant_env with
  | Except.error _ => (st, none)
  | Except.ok cfg0 =>
    let cfg1 := merge_db_overrides env.docker env.db_main_row cfg0
    let cfg2 :=
      match cfg1.vector_store with
      | some _ => if test_qdrant_connection env then cfg1 else { cfg1 with vector_store := none }
      | none => cfg1
    if st.client == none || st.config_hash != some cfg2 then
      if env.build_ok cfg2 then
        ({ client := some cfg2, config_hash := some cfg2 }, some cfg2)
      else (resetClientState, none)
    else (st, st.client)

/-- One handler invocation, as a relation between the database before and
after.  The simple and unknown response branches of add_memories insert a row
under a freshly generated uuid4 without first querying for it; the freshness
side condition on those two constructors models the collision-freeness of
version-4 uuids (the results branch needs none, because it first queries for
the id and reactivates in place when it is taken). -/
inductive MStep : Db → Db → Prop where
  | add_results : ∀ uid cn text avail upk apk act items gid now db,
      MStep db (add_memories uid cn text avail upk apk act (Mem0Response.results items) gid now db).1
  | add_simple : ∀ uid cn text avail upk apk act gid now db,
      (∀ m ∈ db.memories, m.id ≠ gid) →
      MStep db (add_memories uid cn text avail upk apk act Mem0Response.simpleDict gid now db).1
  | add_unknown : ∀ uid cn text avail upk apk act gid now db,
      (∀ m ∈ db.memories, m.id ≠ gid) →
      MStep db (add_memories uid cn text avail upk apk act Mem0Response.nonDict gid now db).1
  | search : ∀ uid cn query avail upk apk env db,
      MStep db (search_memory uid cn query avail upk apk env db).1
  | list : ∀ uid cn avail upk apk resp db,
      MStep db (list_memories uid cn avail upk apk resp db).1
  | delete_all : ∀ uid cn avail upk apk vok now db,
      MStep db (delete_all_memories uid cn avail upk apk vok now db).1

/-- Databases reachable from an empty store through handler invocations. -/
inductive Reachable : Db → Prop where
  | init : ∀ rules, Reachable (initDb rules)
  | step : ∀ db db2, Reachable db → MStep db db2 → Reachable db2

/-- The transition rows of one memory, in append order. -/
def histOf (db : Db) (i : Uuid) : List MemoryStatusHistory :=
  db.history.filter (fun r => r.memory_id == i)

/-! ### The database invariant maintained by every handler -/

/-- The structural invariant every database reachable through the handlers
satisfies: memory ids are unique (the primary key), every transition row points
at an existing memory row (rows are only appended together with the memory they
describe, and memories are never physically removed), and the last transition
row of a memory carries its current state. -/
structure DbInv (db : Db) : Prop where
  nodup : (db.memories.map (fun m => m.id)).Nodup
  histDom : ∀ r ∈ db.history, ∃ m ∈ db.memories, m.id = r.memory_id
  lastMatch : ∀ m ∈ db.memories, ∀ r, (histOf db m.id).getLast? = some r →
    r.new_state = m.state

/-- The deleted-timestamp invariant the handlers maintain in one direction:
a tombstoned record always carries a deletion timestamp (the converse fails,
see the corresponding counterexample). -/
def DelInv (db : Db) : Prop :=
  ∀ m ∈ db.memories, m.state = MemoryState.deleted → m.deleted_at ≠ none

/-- The record mutation of the delete loop: flip to deleted and stamp
deleted_at. -/
def flipDel (now : Nat) (m : Memory) : Memory :=
  { m with state := MemoryState.deleted, deleted_at := some now }

/-- A one-call store used by several witnesses: the results-format branch of
add_memories creates memory 5 for user 1 and app 2 on the empty store. -/
def dbAdd1 : Db :=
  (add_memories (some "u") (some "app") "hi" true 1 2 true
    (Mem0Response.results [{ rid := 5, event := some "ADD", mem := none }]) 0 7
    (initDb [])).1

/-- A concrete session environment for the probe-failure witness: default
qdrant configuration, no configs-table row, failing probe, and a builder that
accepts every configuration. -/
def clientEnvW : ClientEnv :=
  { qdrant_env := { qdrant_url := none, qdrant_api_key := none, qdrant_collection := none },
    docker := { ollama_host := none, in_docker := false, hdi_resolvable := false,
                gateway := none },
    db_main_row := Except.ok none,
    probe_ok := false,
    build_ok := fun _ => true }

/-! ### Basic lemmas about the embedding primitives -/

theorem merge_db_overrides_vector_store (docker : DockerEnv)
    (row? : Except Unit (Option DbMainCfg)) (cfg0 : Mem0Config) :
    (merge_db_overrides docker row? cfg0).vector_store = cfg0.vector_store := by
  unfold merge_db_overrides
  rcases row? with _ | row
  · rfl
  · rcases row with _ | r
    · rfl
    · rcases hl : r.llm with _ | l <;> rcases he : r.embedder with _ | em <;> simp [hl, he]

theorem updateById_id_map (l : List Memory) (mid : Uuid) (f : Memory → Memory)
    (hf : ∀ m, (f m).id = m.id) :
    (updateById l mid f).map (fun m => m.id) = l.map (fun m => m.id) := by
  induction l with
  | nil => rfl
  | cons m rest ih =>
    by_cases h : (m.id == mid) = true
    · simp [updateById, h, hf]
    · simp [updateById, h, ih]

theorem mem_updateById {l : List Memory} {mid : Uuid} {f : Memory → Memory} {x : Memory}
    (hx : x ∈ updateById l mid f) : x ∈ l ∨ ∃ m, m ∈ l ∧ x = f m := by
  induction l with
  | nil => simp [updateById] at hx
  | cons m rest ih =>
    by_cases h : (m.id == mid) = true
    · simp only [updateById, h, if_true] at hx
      rcases List.mem_cons.mp hx with h1 | h1
      · exact Or.inr ⟨m, List.mem_cons_self m rest, h1⟩
      · exact Or.inl (List.mem_cons_of_mem _ h1)
    · simp only [updateById, h, if_false, Bool.false_eq_true] at hx
      rcases List.mem_cons.mp hx with h1 | h1
      · exact Or.inl (h1 ▸ List.mem_cons_self m rest)
      · rcases ih h1 with h2 | ⟨m2, hm2, hfm2⟩
        · exact Or.inl (List.mem_cons_of_mem _ h2)
        · exact Or.inr ⟨m2, List.mem_cons_of_mem _ hm2, hfm2⟩

theorem map_if_id {l : List Memory} (mid : Uuid) (f : Memory → Memory)
    (h : ∀ m ∈ l, m.id ≠ mid) :
    l.map (fun m => if m.id == mid then f m else m) = l := by
  have h2 : l.map (fun m => if m.id == mid then f m else m) = l.map (fun m => m) := by
    apply List.map_congr_left
    intro a ha
    simp [h a ha]
  simpa using h2

theorem updateById_eq_map {l : List Memory} (mid : Uuid) (f : Memory → Memory)
    (hnd : (l.map (fun m => m.id)).Nodup) :
    updateById l mid f = l.map (fun m => if m.id == mid then f m else m) := by
  induction l with
  | nil => rfl
  | cons m rest ih =>
    simp only [List.map_cons, List.nodup_cons] at hnd
    by_cases h : (m.id == mid) = true
    · have hmid : m.id = mid := by simpa using h
      have hrest : rest.map (fun x => if x.id == mid then f x else x) = rest := by
        apply map_if_id
        intro a ha hamid
        exact hnd.1 (by rw [hmid, ← hamid]; exact List.mem_map_of_mem (fun m => m.id) ha)
      simp only [updateById, List.map_cons]
      rw [if_pos h, if_pos h, hrest]
    · simp only [updateById, List.map_cons]
      rw [if_neg (by simpa using h), if_neg (by simpa using h), ih hnd.2]

theorem histOf_history_only (db db2 : Db) (h : db2.history = db.history) (i : Uuid) :
    histOf db2 i = histOf db i := by
  simp [histOf, h]

theorem histOf_append_row (db : Db) (db2 : Db) (row : MemoryStatusHistory)
    (h : db2.history = db.history ++ [row]) (i : Uuid) :
    histOf db2 i = histOf db i ++ (if row.memory_id == i then [row] else []) := by
  simp only [histOf, h, List.filter_append]
  congr 1
  by_cases hr : (row.memory_id == i) = true <;> simp [hr]

theorem dbInv_congr {db db2 : Db} (hm : db2.memories = db.memories)
    (hh : db2.history = db.history) (inv : DbInv db) : DbInv db2 := by
  constructor
  · rw [hm]; exact inv.nodup
  · intro r hr
    rw [hm]
    exact inv.histDom r (by rw [hh] at hr; exact hr)
  · intro m hmem r hr
    rw [histOf_history_only db db2 hh] at hr
    exact inv.lastMatch m (by rw [hm] at hmem; exact hmem) r hr

theorem histOf_nil_of_fresh {db : Db} (inv : DbInv db) {i : Uuid}
    (hfresh : ∀ m ∈ db.memories, m.id ≠ i) : histOf db i = [] := by
  rw [histOf, List.filter_eq_nil_iff]
  intro r hr
  rcases inv.histDom r hr with ⟨m, hm, hid⟩
  simp only [beq_iff_eq]
  intro heq
  exact hfresh m hm (hid.trans heq)

theorem dbInv_insert_row {db db2 : Db} {mem : Memory} {row : MemoryStatusHistory}
    (hm : db2.memories = db.memories ++ [mem])
    (hh : db2.history = db.history ++ [row])
    (hfresh : ∀ m ∈ db.memories, m.id ≠ mem.id)
    (hrowid : row.memory_id = mem.id)
    (hrowst : row.new_state = mem.state)
    (inv : DbInv db) : DbInv db2 := by
  constructor
  · rw [hm]
    simp only [List.map_append, List.map_cons, List.map_nil]
    rw [List.nodup_append]
    refine ⟨inv.nodup, List.nodup_singleton _, ?_⟩
    intro a ha
    rcases List.mem_map.mp ha with ⟨m, hmm, hid⟩
    simp only [List.mem_singleton]
    intro heq
    exact hfresh m hmm (hid ▸ heq)
  · intro r hr
    rw [hh] at hr
    rcases List.mem_append.mp hr with h1 | h1
    · rcases inv.histDom r h1 with ⟨m, hmm, hid⟩
      exact ⟨m, by rw [hm]; exact List.mem_append_left _ hmm, hid⟩
    · rcases List.mem_singleton.mp h1 with rfl
      exact ⟨mem, by rw [hm]; exact List.mem_append_right _ (List.mem_singleton_self _), hrowid.symm⟩
  · intro m hmem r hr
    rw [hm] at hmem
    rw [histOf_append_row db db2 row hh] at hr
    rcases List.mem_append.mp hmem with h1 | h1
    · have hne : (row.memory_id == m.id) = false := by
        simp only [beq_eq_false_iff_ne, ne_eq]
        intro heq
        exact hfresh m h1 (by rw [← heq, hrowid])
      have hif : (if (row.memory_id == m.id) = true then [row] else []) = [] := by
        simp [hne]
      rw [hif, List.append_nil] at hr
      exact inv.lastMatch m h1 r hr
    · have hme : m = mem := List.mem_singleton.mp h1
      have hemp : histOf db m.id = [] := by
        rw [hme]; exact histOf_nil_of_fresh inv hfresh
      have hif : (if (row.memory_id == m.id) = true then [row] else []) = [row] := by
        simp [hrowid, hme]
      rw [hemp, hif] at hr
      have h2 : (([] ++ [row]) : List MemoryStatusHistory).getLast? = some row := rfl
      rw [h2] at hr
      rw [(Option.some_inj.mp hr).symm, hrowst, hme]

theorem dbInv_insert_norow {db db2 : Db} {mem : Memory}
    (hm : db2.memories = db.memories ++ [mem])
    (hh : db2.history = db.history)
    (hfresh : ∀ m ∈ db.memories, m.id ≠ mem.id)
    (inv : DbInv db) : DbInv db2 := by
  constructor
  · rw [hm]
    simp only [List.map_append, List.map_cons, List.map_nil]
    rw [List.nodup_append]
    refine ⟨inv.nodup, List.nodup_singleton _, ?_⟩
    intro a ha
    rcases List.mem_map.mp ha with ⟨m, hmm, hid⟩
    simp only [List.mem_singleton]
    intro heq
    exact hfresh m hmm (hid ▸ heq)
  · intro r hr
    rw [hh] at hr
    rcases inv.histDom r hr with ⟨m, hmm, hid⟩
    exact ⟨m, by rw [hm]; exact List.mem_append_left _ hmm, hid⟩
  · intro m hmem r hr
    rw [hm] at hmem
    rw [histOf_history_only db db2 hh] at hr
    rcases List.mem_append.mp hmem with h1 | h1
    · exact inv.lastMatch m h1 r hr
    · have hme : m = mem := List.mem_singleton.mp h1
      rw [hme, histOf_nil_of_fresh inv hfresh] at hr
      exact Option.noConfusion hr

theorem dbInv_update_row {db db2 : Db} {rid : Uuid} {f : Memory → Memory}
    {row : MemoryStatusHistory}
    (hm : db2.memories = updateById db.memories rid f)
    (hh : db2.history = db.history ++ [row])
    (hfid : ∀ m, (f m).id = m.id)
    (hexists : ∃ m ∈ db.memories, m.id = rid)
    (hrowid : row.memory_id = rid)
    (hfst : ∀ m, (f m).state = row.new_state)
    (inv : DbInv db) : DbInv db2 := by
  have hmap : db2.memories =
      db.memories.map (fun m => if m.id == rid then f m else m) := by
    rw [hm, updateById_eq_map rid f inv.nodup]
  constructor
  · rw [hm, updateById_id_map db.memories rid f hfid]
    exact inv.nodup
  · intro r hr
    rw [hh] at hr
    rcases List.mem_append.mp hr with h1 | h1
    · rcases inv.histDom r h1 with ⟨m, hmm, hid⟩
      have hmem2 := List.mem_map_of_mem (fun x => if x.id == rid then f x else x) hmm
      by_cases hc : (m.id == rid) = true
      · refine ⟨f m, ?_, by rw [hfid]; exact hid⟩
        rw [hmap]
        simpa [hc] using hmem2
      · refine ⟨m, ?_, hid⟩
        rw [hmap]
        simpa [hc] using hmem2
    · have hre : r = row := List.mem_singleton.mp h1
      rcases hexists with ⟨m, hmm, hid⟩
      have hmem2 := List.mem_map_of_mem (fun x => if x.id == rid then f x else x) hmm
      have hc : (m.id == rid) = true := by simpa using hid
      refine ⟨f m, ?_, by rw [hfid, hid, hre, hrowid]⟩
      rw [hmap]
      simpa [hc] using hmem2
  · intro m2 hmem r hr
    rw [hmap] at hmem
    rcases List.mem_map.mp hmem with ⟨m, hmm, hme⟩
    rw [histOf_append_row db db2 row hh] at hr
    by_cases hc : (m.id == rid) = true
    · have hm2 : m2 = f m := by rw [← hme, if_pos hc]
      have hid2 : m2.id = rid := by rw [hm2, hfid]; exact (by simpa using hc)
      rw [hid2, hrowid] at hr
      simp only [beq_self_eq_true, if_true] at hr
      have hlast : ((histOf db rid) ++ [row]).getLast? = some row := List.getLast?_concat _
      rw [hlast] at hr
      rcases Option.some_inj.mp hr with rfl
      rw [hm2]
      exact (hfst m).symm
    · have hm2 : m2 = m := by rw [← hme, if_neg (by simpa using hc)]
      have hid2 : m2.id ≠ rid := by rw [hm2]; simpa using hc
      have hne : (row.memory_id == m2.id) = false := by
        simp only [beq_eq_false_iff_ne, ne_eq, hrowid]
        exact fun heq => hid2 heq.symm
      have hif : (if (row.memory_id == m2.id) = true then [row] else []) = [] := by
        simp [hne]
      rw [hif, List.append_nil] at hr
      exact hm2 ▸ inv.lastMatch m hmm r (by rw [← hm2]; exact hr)

theorem apply_add_event_dbInv (upk apk : Uuid) (text : String) (now : Nat)
    (st : Db × List AddedItem) (item : ResultItem) (inv : DbInv st.1) :
    DbInv (apply_add_event upk apk text now st item).1 := by
  obtain ⟨db, added⟩ := st
  simp only [apply_add_event]
  by_cases hev : (item.event == some "ADD") = true
  · rw [if_pos hev]
    cases hfound : db.memories.find? (fun m => m.id == item.rid) with
    | none =>
      refine @dbInv_insert_row db _ _ _ rfl rfl ?_ rfl rfl inv
      intro m hm
      have := List.find?_eq_none.mp hfound m hm
      simpa using this
    | some mfound =>
      refine @dbInv_update_row db _ _ _ _ rfl rfl (fun m => rfl) ?_ rfl (fun m => rfl) inv
      exact ⟨mfound, List.mem_of_find?_eq_some hfound, by simpa using List.find?_some hfound⟩
  · rw [if_neg hev]
    by_cases hdel : (item.event == some "DELETE") = true
    · rw [if_pos hdel]
      cases hfound : db.memories.find? (fun m => m.id == item.rid) with
      | none => exact inv
      | some mfound =>
        refine @dbInv_update_row db _ _ _ _ rfl rfl (fun m => rfl) ?_ rfl (fun m => rfl) inv
        exact ⟨mfound, List.mem_of_find?_eq_some hfound, by simpa using List.find?_some hfound⟩
    · rw [if_neg hdel]
      exact inv

theorem foldl_add_event_dbInv (upk apk : Uuid) (text : String) (now : Nat)
    (items : List ResultItem) (st : Db × List AddedItem) (inv : DbInv st.1) :
    DbInv ((items.foldl (apply_add_event upk apk text now) st).1) := by
  induction items generalizing st with
  | nil => exact inv
  | cons item rest ih =>
    exact ih _ (apply_add_event_dbInv upk apk text now st item inv)

theorem add_memories_dbInv (uid client_name : Option String) (text : String)
    (avail : Bool) (upk apk : Uuid) (act : Bool) (response : Mem0Response)
    (gid : Uuid) (now : Nat) (db : Db)
    (hfresh : response = Mem0Response.simpleDict ∨ response = Mem0Response.nonDict →
      ∀ m ∈ db.memories, m.id ≠ gid)
    (inv : DbInv db) :
    DbInv (add_memories uid client_name text avail upk apk act response gid now db).1 := by
  unfold add_memories
  split
  · exact inv
  · split
    · exact inv
    · split
      · exact inv
      · split
        · exact inv
        · split
          · exact inv
          · cases response with
            | results items =>
              exact foldl_add_event_dbInv upk apk text now items (db, []) inv
            | simpleDict =>
              refine @dbInv_insert_row db _ _ _ rfl rfl ?_ rfl rfl inv
              exact hfresh (Or.inl rfl)
            | nonDict =>
              refine @dbInv_insert_norow db _ _ rfl rfl ?_ inv
              exact hfresh (Or.inr rfl)

theorem delete_all_flip_dbInv (upk apk : Uuid) (now : Nat) (db : Db) (i : Uuid)
    (inv : DbInv db) : DbInv (delete_all_flip upk apk now db i) := by
  unfold delete_all_flip
  cases hfound : db.memories.find? (fun m => m.id == i) with
  | none => exact inv
  | some mfound =>
    refine @dbInv_update_row db _ _ _ _ rfl rfl (fun m => rfl) ?_ rfl (fun m => rfl) inv
    exact ⟨mfound, List.mem_of_find?_eq_some hfound, by simpa using List.find?_some hfound⟩

theorem foldl_flip_dbInv (upk apk : Uuid) (now : Nat) (ids : List Uuid) (db : Db)
    (inv : DbInv db) : DbInv (ids.foldl (delete_all_flip upk apk now) db) := by
  induction ids generalizing db with
  | nil => exact inv
  | cons i rest ih => exact ih _ (delete_all_flip_dbInv upk apk now db i inv)

theorem delete_all_memories_dbInv (uid client_name : Option String) (avail : Bool)
    (upk apk : Uuid) (vok : Uuid → Bool) (now : Nat) (db : Db) (inv : DbInv db) :
    DbInv (delete_all_memories uid client_name avail upk apk vok now db).1 := by
  unfold delete_all_memories
  split
  · exact inv
  · split
    · exact inv
    · split
      · exact inv
      · exact foldl_flip_dbInv upk apk now _ db inv

theorem search_memory_tables (uid client_name : Option String) (query : String)
    (avail : Bool) (upk apk : Uuid) (env : SearchEnv) (db : Db) :
    (search_memory uid client_name query avail upk apk env db).1.memories = db.memories ∧
    (search_memory uid client_name query avail upk apk env db).1.history = db.history := by
  unfold search_memory
  split
  · exact ⟨rfl, rfl⟩
  · split
    · exact ⟨rfl, rfl⟩
    · split
      · exact ⟨rfl, rfl⟩
      · split
        · exact ⟨rfl, rfl⟩
        · split
          · exact ⟨rfl, rfl⟩
          · split
            · split
              · exact ⟨rfl, rfl⟩
              · exact ⟨rfl, rfl⟩
            · exact ⟨rfl, rfl⟩

theorem list_memories_tables (uid client_name : Option String) (avail : Bool)
    (upk apk : Uuid) (resp : GetAllResp) (db : Db) :
    (list_memories uid client_name avail upk apk resp db).1.memories = db.memories ∧
    (list_memories uid client_name avail upk apk resp db).1.history = db.history := by
  unfold list_memories
  split
  · exact ⟨rfl, rfl⟩
  · split
    · exact ⟨rfl, rfl⟩
    · split
      · exact ⟨rfl, rfl⟩
      · exact ⟨rfl, rfl⟩

theorem step_dbInv {db db2 : Db} (h : MStep db db2) (inv : DbInv db) : DbInv db2 := by
  cases h with
  | add_results uid cn text avail upk apk act items gid now db =>
    exact add_memories_dbInv uid cn text avail upk apk act _ gid now db
      (by intro hc; cases hc <;> simp_all) inv
  | add_simple uid cn text avail upk apk act gid now db hfresh =>
    exact add_memories_dbInv uid cn text avail upk apk act _ gid now db
      (fun _ => hfresh) inv
  | add_unknown uid cn text avail upk apk act gid now db hfresh =>
    exact add_memories_dbInv uid cn text avail upk apk act _ gid now db
      (fun _ => hfresh) inv
  | search uid cn query avail upk apk env db =>
    have h2 := search_memory_tables uid cn query avail upk apk env db
    exact dbInv_congr h2.1 h2.2 inv
  | list uid cn avail upk apk resp db =>
    have h2 := list_memories_tables uid cn avail upk apk resp db
    exact dbInv_congr h2.1 h2.2 inv
  | delete_all uid cn avail upk apk vok now db =>
    exact delete_all_memories_dbInv uid cn avail upk apk vok now db inv

theorem initDb_dbInv (rules : List AccessControl) : DbInv (initDb rules) := by
  constructor
  · simp [initDb]
  · intro r hr
    simp [initDb] at hr
  · intro m hm
    simp [initDb] at hm

theorem reachable_dbInv {db : Db} (h : Reachable db) : DbInv db := by
  induction h with
  | init rules => exact initDb_dbInv rules
  | step db db2 _ hstep ih => exact step_dbInv hstep ih

theorem delInv_congr {db db2 : Db} (hm : db2.memories = db.memories)
    (inv : DelInv db) : DelInv db2 := by
  intro m hmem
  exact inv m (hm ▸ hmem)

theorem delInv_insert {db db2 : Db} {mem : Memory}
    (hm : db2.memories = db.memories ++ [mem])
    (hmem : mem.state = MemoryState.deleted → mem.deleted_at ≠ none)
    (inv : DelInv db) : DelInv db2 := by
  intro m hmm hst
  rw [hm] at hmm
  rcases List.mem_append.mp hmm with h1 | h1
  · exact inv m h1 hst
  · rw [List.mem_singleton.mp h1]
    exact hmem (by rw [← List.mem_singleton.mp h1]; exact hst)

theorem delInv_update {db db2 : Db} {rid : Uuid} {f : Memory → Memory}
    (hm : db2.memories = updateById db.memories rid f)
    (hf : ∀ m, (f m).state = MemoryState.deleted → (f m).deleted_at ≠ none)
    (inv : DelInv db) : DelInv db2 := by
  intro m hmm hst
  rw [hm] at hmm
  rcases mem_updateById hmm with h1 | ⟨m0, _, hfm⟩
  · exact inv m h1 hst
  · rw [hfm]
    exact hf m0 (hfm ▸ hst)

theorem apply_add_event_delInv (upk apk : Uuid) (text : String) (now : Nat)
    (st : Db × List AddedItem) (item : ResultItem) (inv : DelInv st.1) :
    DelInv (apply_add_event upk apk text now st item).1 := by
  obtain ⟨db, added⟩ := st
  simp only [apply_add_event]
  by_cases hev : (item.event == some "ADD") = true
  · rw [if_pos hev]
    cases hfound : db.memories.find? (fun m => m.id == item.rid) with
    | none => exact @delInv_insert db _ _ rfl (by intro h; cases h) inv
    | some mfound => exact @delInv_update db _ _ _ rfl (by intro m h; cases h) inv
  · rw [if_neg hev]
    by_cases hdel : (item.event == some "DELETE") = true
    · rw [if_pos hdel]
      cases hfound : db.memories.find? (fun m => m.id == item.rid) with
      | none => exact inv
      | some mfound =>
        exact @delInv_update db _ _ _ rfl (by intro m _; simp) inv
    · rw [if_neg hdel]
      exact inv

theorem foldl_add_event_delInv (upk apk : Uuid) (text : String) (now : Nat)
    (items : List ResultItem) (st : Db × List AddedItem) (inv : DelInv st.1) :
    DelInv ((items.foldl (apply_add_event upk apk text now) st).1) := by
  induction items generalizing st with
  | nil => exact inv
  | cons item rest ih =>
    exact ih _ (apply_add_event_delInv upk apk text now st item inv)

theorem add_memories_delInv (uid client_name : Option String) (text : String)
    (avail : Bool) (upk apk : Uuid) (act : Bool) (response : Mem0Response)
    (gid : Uuid) (now : Nat) (db : Db) (inv : DelInv db) :
    DelInv (add_memories uid client_name text avail upk apk act response gid now db).1 := by
  unfold add_memories
  split
  · exact inv
  · split
    · exact inv
    · split
      · exact inv
      · split
        · exact inv
        · split
          · exact inv
          · cases response with
            | results items =>
              exact foldl_add_event_delInv upk apk text now items (db, []) inv
            | simpleDict =>
              exact @delInv_insert db _ _ rfl (by intro h; cases h) inv
            | nonDict =>
              exact @delInv_insert db _ _ rfl (by intro h; cases h) inv

theorem delete_all_flip_delInv (upk apk : Uuid) (now : Nat) (db : Db) (i : Uuid)
    (inv : DelInv db) : DelInv (delete_all_flip upk apk now db i) := by
  unfold delete_all_flip
  cases hfound : db.memories.find? (fun m => m.id == i) with
  | none => exact inv
  | some mfound => exact @delInv_update db _ _ _ rfl (by intro m _; simp) inv

theorem foldl_flip_delInv (upk apk : Uuid) (now : Nat) (ids : List Uuid) (db : Db)
    (inv : DelInv db) : DelInv (ids.foldl (delete_all_flip upk apk now) db) := by
  induction ids generalizing db with
  | nil => exact inv
  | cons i rest ih => exact ih _ (delete_all_flip_delInv upk apk now db i inv)

theorem delete_all_memories_delInv (uid client_name : Option String) (avail : Bool)
    (upk apk : Uuid) (vok : Uuid → Bool) (now : Nat) (db : Db) (inv : DelInv db) :
    DelInv (delete_all_memories uid client_name avail upk apk vok now db).1 := by
  unfold delete_all_memories
  split
  · exact inv
  · split
    · exact inv
    · split
      · exact inv
      · exact foldl_flip_delInv upk apk now _ db inv

theorem step_delInv {db db2 : Db} (h : MStep db db2) (inv : DelInv db) : DelInv db2 := by
  cases h with
  | add_results uid cn text avail upk apk act items gid now db =>
    exact add_memories_delInv uid cn text avail upk apk act _ gid now db inv
  | add_simple uid cn text avail upk apk act gid now db hfresh =>
    exact add_memories_delInv uid cn text avail upk apk act _ gid now db inv
  | add_unknown uid cn text avail upk apk act gid now db hfresh =>
    exact add_memories_delInv uid cn text avail upk apk act _ gid now db inv
  | search uid cn query avail upk apk env db =>
    exact delInv_congr (search_memory_tables uid cn query avail upk apk env db).1 inv
  | list uid cn avail upk apk resp db =>
    exact delInv_congr (list_memories_tables uid cn avail upk apk resp db).1 inv
  | delete_all uid cn avail upk apk vok now db =>
    exact delete_all_memories_delInv uid cn avail upk apk vok now db inv

theorem reachable_delInv {db : Db} (h : Reachable db) : DelInv db := by
  induction h with
  | init rules => intro m hm; simp [initDb] at hm
  | step db db2 _ hstep ih => exact step_delInv hstep ih

theorem delete_all_flip_id_map (upk apk : Uuid) (now : Nat) (db : Db) (i : Uuid) :
    (delete_all_flip upk apk now db i).memories.map (fun m => m.id)
      = db.memories.map (fun m => m.id) := by
  unfold delete_all_flip
  split
  · exact updateById_id_map _ _ _ (fun m => rfl)
  · rfl

theorem delete_all_flip_rules (upk apk : Uuid) (now : Nat) (db : Db) (i : Uuid) :
    (delete_all_flip upk apk now db i).access_controls = db.access_controls := by
  unfold delete_all_flip
  split <;> rfl

theorem foldl_flip_rules (upk apk : Uuid) (now : Nat) (ids : List Uuid) (db : Db) :
    (ids.foldl (delete_all_flip upk apk now) db).access_controls = db.access_controls := by
  induction ids generalizing db with
  | nil => rfl
  | cons i rest ih =>
    rw [List.foldl_cons, ih, delete_all_flip_rules]

theorem delete_all_flip_memories (upk apk : Uuid) (now : Nat) (db : Db) (i : Uuid)
    (hnd : (db.memories.map (fun m => m.id)).Nodup) :
    (delete_all_flip upk apk now db i).memories
      = db.memories.map (fun m => if m.id == i then flipDel now m else m) := by
  unfold delete_all_flip
  cases hfound : db.memories.find? (fun m => m.id == i) with
  | none =>
    have hfr : ∀ m ∈ db.memories, m.id ≠ i := by
      intro m hm
      have := List.find?_eq_none.mp hfound m hm
      simpa using this
    simp only
    rw [map_if_id i (flipDel now) hfr]
  | some mfound =>
    simp only
    exact updateById_eq_map i (flipDel now) hnd

theorem foldl_flip_memories (upk apk : Uuid) (now : Nat) (ids : List Uuid) (db : Db)
    (hnd : (db.memories.map (fun m => m.id)).Nodup) :
    (ids.foldl (delete_all_flip upk apk now) db).memories
      = db.memories.map (fun m => if ids.contains m.id then flipDel now m else m) := by
  induction ids generalizing db with
  | nil => simp
  | cons i rest ih =>
    have h1 := delete_all_flip_memories upk apk now db i hnd
    have hnd2 : ((delete_all_flip upk apk now db i).memories.map (fun m => m.id)).Nodup := by
      rw [delete_all_flip_id_map]; exact hnd
    rw [List.foldl_cons, ih _ hnd2, h1, List.map_map]
    apply List.map_congr_left
    intro m hm
    simp only [Function.comp]
    by_cases hc : (m.id == i) = true
    · rw [if_pos hc]
      have hcont : ((i :: rest).contains m.id) = true := by
        rw [List.contains_cons, hc, Bool.true_or]
      rw [if_pos hcont]
      by_cases hr : (rest.contains (flipDel now m).id) = true
      · rw [if_pos hr]
        rfl
      · rw [if_neg hr]
    · rw [if_neg hc]
      have hcf : (m.id == i) = false := by simpa using hc
      have hcont : ((i :: rest).contains m.id) = rest.contains m.id := by
        rw [List.contains_cons, hcf, Bool.false_or]
      rw [hcont]

theorem foldl_flip_history_length (upk apk : Uuid) (now : Nat) (ids : List Uuid)
    (db : Db) (h : ∀ i ∈ ids, ∃ m ∈ db.memories, m.id = i) :
    (ids.foldl (delete_all_flip upk apk now) db).history.length
      = db.history.length + ids.length := by
  induction ids generalizing db with
  | nil => rfl
  | cons i rest ih =>
    have hfound : (db.memories.find? (fun m => m.id == i)).isSome := by
      rw [List.find?_isSome]
      rcases h i (List.mem_cons_self i rest) with ⟨m, hm, hid⟩
      exact ⟨m, hm, by simpa using hid⟩
    have hlen1 : (delete_all_flip upk apk now db i).history.length
        = db.history.length + 1 := by
      unfold delete_all_flip
      cases hf : db.memories.find? (fun m => m.id == i) with
      | none => rw [hf] at hfound; cases hfound
      | some mfound => simp
    have hrest : ∀ j ∈ rest, ∃ m ∈ (delete_all_flip upk apk now db i).memories, m.id = j := by
      intro j hj
      rcases h j (List.mem_cons_of_mem i hj) with ⟨m, hm, hid⟩
      have : m.id ∈ (delete_all_flip upk apk now db i).memories.map (fun m => m.id) := by
        rw [delete_all_flip_id_map]
        exact List.mem_map_of_mem _ hm
      rcases List.mem_map.mp this with ⟨m2, hm2, hid2⟩
      exact ⟨m2, hm2, hid2.trans hid⟩
    rw [List.foldl_cons, ih _ hrest, hlen1]
    simp [Nat.add_assoc, Nat.add_comm 1]

theorem check_rules_only (db db2 : Db) (h : db2.access_controls = db.access_controls)
    (m : Memory) (apk : Uuid) :
    check_memory_access_permissions db2 m apk
      = check_memory_access_permissions db m apk := by
  simp [check_memory_access_permissions, h]

theorem accessible_after_delete_all (upk apk : Uuid) (now : Nat) (db : Db)
    (hnd : (db.memories.map (fun m => m.id)).Nodup) :
    (((((db.memories.filter (fun m => m.user_id == upk)).filter
          (fun m => check_memory_access_permissions db m apk)).map (fun m => m.id)).foldl
            (delete_all_flip upk apk now) db).memories.filter
        (fun m => m.user_id == upk)).filter
      (fun m => check_memory_access_permissions
        ((((db.memories.filter (fun m => m.user_id == upk)).filter
            (fun m => check_memory_access_permissions db m apk)).map (fun m => m.id)).foldl
              (delete_all_flip upk apk now) db) m apk) = [] := by
  set acc := ((db.memories.filter (fun m => m.user_id == upk)).filter
    (fun m => check_memory_access_permissions db m apk)).map (fun m => m.id) with hacc
  set db1 := acc.foldl (delete_all_flip upk apk now) db with hdb1
  have hrules : db1.access_controls = db.access_controls := foldl_flip_rules upk apk now acc db
  have hmem : db1.memories
      = db.memories.map (fun m => if acc.contains m.id then flipDel now m else m) :=
    foldl_flip_memories upk apk now acc db hnd
  rw [List.filter_eq_nil_iff]
  intro x hx
  have hx1 := List.mem_filter.mp hx
  have hxm := hx1.1
  rw [hmem] at hxm
  rcases List.mem_map.mp hxm with ⟨m0, hm0, hgm⟩
  by_cases hcont : (acc.contains m0.id) = true
  · have hxv : x = flipDel now m0 := by rw [← hgm, if_pos hcont]
    rw [hxv]
    simp [check_memory_access_permissions, flipDel]
  · have hxv : x = m0 := by rw [← hgm, if_neg hcont]
    intro hcheck
    rw [check_rules_only db db1 hrules] at hcheck
    have hmacc : m0.id ∈ acc := by
      rw [hacc]
      apply List.mem_map_of_mem
      apply List.mem_filter.mpr
      refine ⟨List.mem_filter.mpr ⟨hm0, ?_⟩, ?_⟩
      · rw [← hxv]; exact hx1.2
      · rw [← hxv]; exact hcheck
    exact hcont (by simpa using hmacc)

theorem delete_all_memories_valid (uid client_name : Option String)
    (hu : str_falsy uid = false) (hc : str_falsy client_name = false)
    (upk apk : Uuid) (vok : Uuid → Bool) (now : Nat) (db : Db) :
    delete_all_memories uid client_name true upk apk vok now db
      = ((((db.memories.filter (fun m => m.user_id == upk)).filter
            (fun m => check_memory_access_permissions db m apk)).map (fun m => m.id)).foldl
              (delete_all_flip upk apk now) db,
         { success := true, error := none,
           message := some "Successfully deleted memories",
           deleted_count := some (((db.memories.filter (fun m => m.user_id == upk)).filter
             (fun m => check_memory_access_permissions db m apk)).map (fun m => m.id)).length }) := by
  unfold delete_all_memories
  rw [if_neg (by simp [hu]), if_neg (by simp [hc]), if_neg (by simp)]

/-- C2: delete_all_memories returns as deleted_count the number of
authoritative-state transition rows appended by that call (not the number of
vector-backend deletions, which do not influence the result), and calling it
twice in immediate succession yields deleted_count = 0 on the second call. -/
theorem delete_all_count_and_idempotent (uid client_name : Option String)
    (hu : str_falsy uid = false) (hc : str_falsy client_name = false)
    (upk apk : Uuid) (vok vok2 : Uuid → Bool) (now now2 : Nat) (db : Db)
    (hnd : (db.memories.map (fun m => m.id)).Nodup) :
    (delete_all_memories uid client_name true upk apk vok now db).2.deleted_count
        = some ((delete_all_memories uid client_name true upk apk vok now db).1.history.length
            - db.history.length) ∧
    (delete_all_memories uid client_name true upk apk vok2 now2
        (delete_all_memories uid client_name true upk apk vok now db).1).2.deleted_count
      = some 0 := by
  rw [delete_all_memories_valid uid client_name hu hc upk apk vok now db]
  constructor
  · have hdom : ∀ i ∈ ((db.memories.filter (fun m => m.user_id == upk)).filter
        (fun m => check_memory_access_permissions db m apk)).map (fun m => m.id),
        ∃ m ∈ db.memories, m.id = i := by
      intro i hi
      rcases List.mem_map.mp hi with ⟨m, hm, hid⟩
      exact ⟨m, (List.mem_filter.mp (List.mem_filter.mp hm).1).1, hid⟩
    have hlen := foldl_flip_history_length upk apk now
      (((db.memories.filter (fun m => m.user_id == upk)).filter
        (fun m => check_memory_access_permissions db m apk)).map (fun m => m.id)) db hdom
    simp only [hlen, Nat.add_sub_cancel_left]
  · rw [delete_all_memories_valid uid client_name hu hc upk apk vok2 now2 _]
    simp only [accessible_after_delete_all upk apk now db hnd, List.map_nil,
      List.length_nil]

theorem delete_all_flip_history_shape (upk apk : Uuid) (now : Nat) (db : Db) (i : Uuid)
    (r : MemoryStatusHistory) (hr : r ∈ (delete_all_flip upk apk now db i).history) :
    r ∈ db.history ∨
      (r.old_state = some MemoryState.active ∧ r.new_state = MemoryState.deleted) := by
  unfold delete_all_flip at hr
  cases hfound : db.memories.find? (fun m => m.id == i) with
  | none => rw [hfound] at hr; exact Or.inl hr
  | some mfound =>
    rw [hfound] at hr
    simp only at hr
    rcases List.mem_append.mp hr with h1 | h1
    · exact Or.inl h1
    · rw [List.mem_singleton.mp h1]
      exact Or.inr ⟨rfl, rfl⟩

theorem foldl_flip_history_shape (upk apk : Uuid) (now : Nat) (ids : List Uuid)
    (db : Db) (r : MemoryStatusHistory)
    (hr : r ∈ (ids.foldl (delete_all_flip upk apk now) db).history) :
    r ∈ db.history ∨
      (r.old_state = some MemoryState.active ∧ r.new_state = MemoryState.deleted) := by
  induction ids generalizing db with
  | nil => exact Or.inl hr
  | cons i rest ih =>
    rw [List.foldl_cons] at hr
    rcases ih _ hr with h1 | h1
    · exact delete_all_flip_history_shape upk apk now db i r h1
    · exact Or.inr h1

/-! ### Claim theorems -/

theorem dbAdd1_reachable : Reachable dbAdd1 :=
  Reachable.step _ _ (Reachable.init [])
    (MStep.add_results (some "u") (some "app") "hi" true 1 2 true
      [{ rid := 5, event := some "ADD", mem := none }] 0 7 (initDb []))

/-- C1 (counterexample): the unknown-response-format branch of add_memories
creates a memory row and commits without appending any transition row, so a
record created through the handlers can have an empty transition history —
refuting the claim that every record has at least one transition row.  The
store below is reached from the empty store by one handler call. -/
theorem created_record_without_history :
    Reachable (add_memories (some "u") (some "app") "hello" true 1 2 true
      Mem0Response.nonDict 7 1 (initDb [])).1 ∧
    (add_memories (some "u") (some "app") "hello" true 1 2 true
      Mem0Response.nonDict 7 1 (initDb [])).1.memories.map (fun m => m.id) = [7] ∧
    (add_memories (some "u") (some "app") "hello" true 1 2 true
      Mem0Response.nonDict 7 1 (initDb [])).1.history = [] := by
  refine ⟨?_, by decide, by decide⟩
  exact Reachable.step _ _ (Reachable.init [])
    (MStep.add_unknown (some "u") (some "app") "hello" true 1 2 true 7 1 (initDb [])
      (by intro m hm; simp [initDb] at hm))

/-- C1 (amended): in every store reachable through the handlers, whenever a
record has a nonempty transition history its current state equals the last
transition row's new_state; the rest of the original claim fails (the
unknown-response branch creates records with no transition row at all, and the
recorded old_state values are hardcoded, so the rows need not form a walk of
the state graph and may include a transition out of deleted). -/
theorem state_eq_last_transition (db : Db) (h : Reachable db) :
    ∀ m ∈ db.memories, ∀ r, (histOf db m.id).getLast? = some r →
      r.new_state = m.state :=
  (reachable_dbInv h).lastMatch

/-- Witness: the last-transition property instantiated at the concrete
one-call store dbAdd1, its single memory row and its single transition row. -/
theorem state_eq_last_transition_inst :
    ({ memory_id := 5, changed_by := 1, old_state := some MemoryState.deleted,
       new_state := MemoryState.active, changed_at := 7 } : MemoryStatusHistory).new_state
      = ({ id := 5, user_id := 1, app_id := 2, content := "hi",
           state := MemoryState.active, created_at := 7, updated_at := some 7,
           archived_at := none, deleted_at := none } : Memory).state :=
  state_eq_last_transition dbAdd1 dbAdd1_reachable
    { id := 5, user_id := 1, app_id := 2, content := "hi",
      state := MemoryState.active, created_at := 7, updated_at := some 7,
      archived_at := none, deleted_at := none }
    (by decide)
    { memory_id := 5, changed_by := 1, old_state := some MemoryState.deleted,
      new_state := MemoryState.active, changed_at := 7 }
    (by decide)

/-- Witness: the delete_all count and idempotence theorem applied to the
concrete one-call store dbAdd1 (one active accessible memory). -/
theorem delete_all_count_and_idempotent_inst :
    (delete_all_memories (some "u") (some "app") true 1 2 (fun _ => true) 9 dbAdd1).2.deleted_count
        = some ((delete_all_memories (some "u") (some "app") true 1 2 (fun _ => true) 9
            dbAdd1).1.history.length - dbAdd1.history.length) ∧
    (delete_all_memories (some "u") (some "app") true 1 2 (fun _ => false) 10
        (delete_all_memories (some "u") (some "app") true 1 2 (fun _ => true) 9
          dbAdd1).1).2.deleted_count = some 0 :=
  delete_all_count_and_idempotent (some "u") (some "app") (by decide) (by decide)
    1 2 (fun _ => true) (fun _ => false) 9 10 dbAdd1 (by decide)

/-- C3 (counterexample): an ADD event for an already-present record whose state
is active appends a transition row with old_state = deleted, not the record's
previous state.  The first call below creates memory 3 through the
simple-response branch (its only row is the synthetic null-to-active one and
its state is active); the second call reactivates it through the results
branch and records old_state = deleted although the record was active. -/
theorem add_event_records_hardcoded_old_state :
    (add_memories (some "u") (some "app") "tea" true 1 2 true
      Mem0Response.simpleDict 3 1 (initDb [])).1.memories.map (fun m => m.state)
        = [MemoryState.active] ∧
    (add_memories (some "u") (some "app") "tea again" true 1 2 true
      (Mem0Response.results [{ rid := 3, event := some "ADD", mem := none }]) 0 2
      (add_memories (some "u") (some "app") "tea" true 1 2 true
        Mem0Response.simpleDict 3 1 (initDb [])).1).1.history
      = [{ memory_id := 3, changed_by := 1, old_state := none,
           new_state := MemoryState.active, changed_at := 1 },
         { memory_id := 3, changed_by := 1, old_state := some MemoryState.deleted,
           new_state := MemoryState.active, changed_at := 2 }] := by
  exact ⟨by decide, by decide⟩

/-- C3 (amended): the transition rows the handlers append carry hardcoded
old_state values rather than the record's previous state: every row appended by
the results-branch ADD event records (deleted, active), every row appended by a
DELETE event or by delete_all_memories records (active, deleted), and the
simple-response creation records (null, active). -/
theorem transition_old_state_hardcoded :
    (∀ (upk apk : Uuid) (text : String) (now : Nat) (db : Db)
        (acc : List AddedItem) (item : ResultItem),
      item.event = some "ADD" →
      (apply_add_event upk apk text now (db, acc) item).1.history
        = db.history
          ++ [MemoryStatusHistory.mk item.rid upk (some MemoryState.deleted)
                MemoryState.active now]) ∧
    (∀ (upk apk : Uuid) (text : String) (now : Nat) (db : Db)
        (acc : List AddedItem) (item : ResultItem),
      item.event = some "DELETE" →
      (apply_add_event upk apk text now (db, acc) item).1.history = db.history ∨
      (apply_add_event upk apk text now (db, acc) item).1.history
        = db.history
          ++ [MemoryStatusHistory.mk item.rid upk (some MemoryState.active)
                MemoryState.deleted now]) ∧
    (∀ (uid client_name : Option String) (text : String) (upk apk gid : Uuid)
        (now : Nat) (db : Db),
      str_falsy uid = false → str_falsy client_name = false →
      blank_string text = false →
      (add_memories uid client_name text true upk apk true
        Mem0Response.simpleDict gid now db).1.history
        = db.history
          ++ [MemoryStatusHistory.mk gid upk none MemoryState.active now]) ∧
    (∀ (uid client_name : Option String) (avail : Bool) (upk apk : Uuid)
        (vok : Uuid → Bool) (now : Nat) (db : Db) (r : MemoryStatusHistory),
      r ∈ (delete_all_memories uid client_name avail upk apk vok now db).1.history →
      r ∈ db.history ∨
        (r.old_state = some MemoryState.active ∧ r.new_state = MemoryState.deleted)) := by
  refine ⟨?_, ?_, ?_, ?_⟩
  · intro upk apk text now db acc item hev
    simp only [apply_add_event]
    rw [if_pos (by simp [hev])]
  · intro upk apk text now db acc item hev
    simp only [apply_add_event]
    rw [if_neg (by simp [hev]), if_pos (by simp [hev])]
    cases hfound : db.memories.find? (fun m => m.id == item.rid) with
    | none => exact Or.inl rfl
    | some mfound => exact Or.inr rfl
  · intro uid client_name text upk apk gid now db hu hc ht
    unfold add_memories
    rw [if_neg (by simp [hu]), if_neg (by simp [hc]), if_neg (by simp [ht]),
      if_neg (by simp), if_neg (by simp)]
  · intro uid client_name avail upk apk vok now db r hr
    unfold delete_all_memories at hr
    by_cases h1 : str_falsy uid = true
    · rw [if_pos h1] at hr; exact Or.inl hr
    · rw [if_neg h1] at hr
      by_cases h2 : str_falsy client_name = true
      · rw [if_pos h2] at hr; exact Or.inl hr
      · rw [if_neg h2] at hr
        by_cases h3 : (!avail) = true
        · rw [if_pos h3] at hr; exact Or.inl hr
        · rw [if_neg h3] at hr
          exact foldl_flip_history_shape upk apk now _ db r hr

/-- Witness: the hardcoded-old-state characterisation instantiated at concrete
inputs — one ADD event, one DELETE event on a present record, one
simple-response creation, and one delete_all row. -/
theorem transition_old_state_hardcoded_inst :
    ((apply_add_event 1 2 "t" 4 (dbAdd1, [])
        { rid := 5, event := some "ADD", mem := none }).1.history
      = dbAdd1.history
        ++ [MemoryStatusHistory.mk 5 1 (some MemoryState.deleted)
              MemoryState.active 4]) ∧
    ((apply_add_event 1 2 "t" 4 (dbAdd1, [])
        { rid := 5, event := some "DELETE", mem := none }).1.history = dbAdd1.history ∨
      (apply_add_event 1 2 "t" 4 (dbAdd1, [])
        { rid := 5, event := some "DELETE", mem := none }).1.history
        = dbAdd1.history
          ++ [MemoryStatusHistory.mk 5 1 (some MemoryState.active)
                MemoryState.deleted 4]) ∧
    ((add_memories (some "u") (some "app") "tea" true 1 2 true
        Mem0Response.simpleDict 9 4 dbAdd1).1.history
      = dbAdd1.history
        ++ [MemoryStatusHistory.mk 9 1 none MemoryState.active 4]) ∧
    (({ memory_id := 5, changed_by := 1, old_state := some MemoryState.active,
        new_state := MemoryState.deleted, changed_at := 9 } : MemoryStatusHistory)
          ∈ dbAdd1.history ∨
      (some MemoryState.active = some MemoryState.active ∧
        MemoryState.deleted = MemoryState.deleted)) :=
  ⟨transition_old_state_hardcoded.1 1 2 "t" 4 dbAdd1 []
      { rid := 5, event := some "ADD", mem := none } rfl,
   transition_old_state_hardcoded.2.1 1 2 "t" 4 dbAdd1 []
      { rid := 5, event := some "DELETE", mem := none } rfl,
   transition_old_state_hardcoded.2.2.1 (some "u") (some "app") "tea" 1 2 9 4 dbAdd1
      (by decide) (by decide) (by decide),
   transition_old_state_hardcoded.2.2.2 (some "u") (some "app") true 1 2
      (fun _ => true) 9 dbAdd1
      { memory_id := 5, changed_by := 1, old_state := some MemoryState.active,
        new_state := MemoryState.deleted, changed_at := 9 }
      (by decide)⟩

/-- C4 (counterexample): reactivating a previously deleted record through an
ADD event sets its state back to active but never clears deleted_at, so after
the three handler calls below the single record has state active with
deleted_at still set — refuting the claimed equivalence between a non-null
deleted_at and the deleted state. -/
theorem reactivated_record_keeps_deleted_at :
    (add_memories (some "u") (some "app") "three" true 1 2 true
      (Mem0Response.results [{ rid := 5, event := some "ADD", mem := none }]) 0 3
      (add_memories (some "u") (some "app") "two" true 1 2 true
        (Mem0Response.results [{ rid := 5, event := some "DELETE", mem := none }]) 0 2
        (add_memories (some "u") (some "app") "one" true 1 2 true
          (Mem0Response.results [{ rid := 5, event := some "ADD", mem := none }]) 0 1
          (initDb [])).1).1).1.memories.map (fun m => (m.state, m.deleted_at))
      = [(MemoryState.active, some 2)] := by
  decide

/-- C4 (amended): in every store reachable through the handlers, a record in
the deleted state carries a non-null deleted_at; the converse direction of the
original claim fails, because reactivation leaves deleted_at set on an active
record. -/
theorem deleted_state_implies_deleted_at (db : Db) (h : Reachable db) :
    ∀ m ∈ db.memories, m.state = MemoryState.deleted → m.deleted_at ≠ none :=
  reachable_delInv h

/-- Witness: the deleted-implies-timestamp direction instantiated at the store
obtained by creating memory 5 and then deleting everything. -/
theorem deleted_state_implies_deleted_at_inst :
    ({ id := 5, user_id := 1, app_id := 2, content := "hi",
       state := MemoryState.deleted, created_at := 7, updated_at := some 7,
       archived_at := none, deleted_at := some 9 } : Memory).deleted_at ≠ none :=
  deleted_state_implies_deleted_at
    (delete_all_memories (some "u") (some "app") true 1 2 (fun _ => true) 9 dbAdd1).1
    (Reachable.step _ _ dbAdd1_reachable
      (MStep.delete_all (some "u") (some "app") true 1 2 (fun _ => true) 9 dbAdd1))
    { id := 5, user_id := 1, app_id := 2, content := "hi",
      state := MemoryState.deleted, created_at := 7, updated_at := some 7,
      archived_at := none, deleted_at := some 9 }
    (by decide) (by decide)

/-- C5: when the primary ranked-search call raises and the direct
vector-backend path either is unavailable or also raises, search_memory still
returns a structured payload with count 0, an empty results array, method
fallback and an error annotation — it never surfaces the failure to the
caller. -/
theorem search_double_failure_returns_fallback (uid client_name : Option String)
    (query : String) (upk apk : Uuid) (env : SearchEnv) (db : Db) (e : String)
    (hu : str_falsy uid = false) (hc : str_falsy client_name = false)
    (hq : blank_string query = false)
    (hp : env.primary = Except.error e)
    (hs : env.has_vector_attrs = false ∨ ∃ e2, env.secondary = Except.error e2) :
    (search_memory uid client_name query true upk apk env db).2.count = some 0 ∧
    (search_memory uid client_name query true upk apk env db).2.results = [] ∧
    (search_memory uid client_name query true upk apk env db).2.method = some "fallback" ∧
    (search_memory uid client_name query true upk apk env db).2.error.isSome = true := by
  unfold search_memory
  rw [if_neg (by simp [hu]), if_neg (by simp [hc]), if_neg (by simp [hq]),
    if_neg (by simp), hp]
  dsimp only
  rcases hs with hs | ⟨e2, hs⟩
  · rw [hs]
    exact ⟨rfl, rfl, rfl, rfl⟩
  · by_cases hv : env.has_vector_attrs = true
    · rw [if_pos hv, hs]
      exact ⟨rfl, rfl, rfl, rfl⟩
    · rw [if_neg hv]
      exact ⟨rfl, rfl, rfl, rfl⟩

/-- Witness: the fallback response at a concrete environment in which the
primary path raises and the client lacks the vector-store attributes. -/
theorem search_double_failure_returns_fallback_inst :
    (search_memory (some "u") (some "app") "tea" true 1 2
      { primary := Except.error "boom", has_vector_attrs := false,
        secondary := Except.ok [] } dbAdd1).2.count = some 0 ∧
    (search_memory (some "u") (some "app") "tea" true 1 2
      { primary := Except.error "boom", has_vector_attrs := false,
        secondary := Except.ok [] } dbAdd1).2.results = [] ∧
    (search_memory (some "u") (some "app") "tea" true 1 2
      { primary := Except.error "boom", has_vector_attrs := false,
        secondary := Except.ok [] } dbAdd1).2.method = some "fallback" ∧
    (search_memory (some "u") (some "app") "tea" true 1 2
      { primary := Except.error "boom", has_vector_attrs := false,
        secondary := Except.ok [] } dbAdd1).2.error.isSome = true :=
  search_double_failure_returns_fallback (some "u") (some "app") "tea" 1 2
    { primary := Except.error "boom", has_vector_attrs := false,
      secondary := Except.ok [] } dbAdd1 "boom"
    (by decide) (by decide) (by decide) rfl (Or.inl rfl)

/-- C6: whenever the rule set contains both a matching allow rule and a
matching deny rule for the same (calling app, memory) pair, the evaluator
denies the pair. -/
theorem deny_overrides_allow (rules : List AccessControl) (app_id memory_id : Uuid)
    (r1 r2 : AccessControl) (h1 : r1 ∈ rules)
    (hm1 : rule_matches r1 app_id memory_id = true) (he1 : r1.effect = "allow")
    (h2 : r2 ∈ rules) (hm2 : rule_matches r2 app_id memory_id = true)
    (he2 : r2.effect = "deny") :
    evaluate_access rules app_id memory_id = false := by
  unfold evaluate_access
  have hany : (rules.filter (fun r => rule_matches r app_id memory_id)).any
      (fun r => r.effect == "deny") = true := by
    rw [List.any_eq_true]
    exact ⟨r2, List.mem_filter.mpr ⟨h2, hm2⟩, by simp [he2]⟩
  simp [hany]

/-- Witness: a wildcard allow rule and an exact deny rule both matching the
pair (app 2, memory 5) evaluate to deny. -/
theorem deny_overrides_allow_inst :
    evaluate_access
      [{ subject_type := "app", subject_id := none, object_type := "memory",
         object_id := none, effect := "allow" },
       { subject_type := "app", subject_id := some 2, object_type := "memory",
         object_id := some 5, effect := "deny" }] 2 5 = false :=
  deny_overrides_allow _ 2 5
    { subject_type := "app", subject_id := none, object_type := "memory",
      object_id := none, effect := "allow" }
    { subject_type := "app", subject_id := some 2, object_type := "memory",
      object_id := some 5, effect := "deny" }
    (by decide) (by decide) rfl (by decide) (by decide) rfl

/-- C7: the session construction is a total function of the environment (every
external failure is an explicit outcome, so obtaining the handle either yields
a handle or none), and when the connectivity probe to the vector backend fails
the vector-store stanza is dropped and the client is still built in basic mode:
the call returns a handle whose configuration carries no vector store. -/
theorem client_probe_failure_basic_mode (env : ClientEnv) (st : ClientState)
    (hwf : st.client = st.config_hash)
    (hprobe : env.probe_ok = false)
    (cfg0 : Mem0Config)
    (hok : get_default_memory_config env.qdrant_env = Except.ok cfg0)
    (hbuild : ∀ c, env.build_ok c = true) :
    ∃ c, (get_memory_client env st).2 = some c ∧ c.vector_store = none := by
  have htest : test_qdrant_connection env = false := by
    unfold test_qdrant_connection
    cases hq : get_qdrant_config env.qdrant_env with
    | error u => rfl
    | ok oqc =>
      cases oqc with
      | none => rfl
      | some qc => exact hprobe
  unfold get_memory_client
  rw [hok]
  dsimp only
  have hv1 := merge_db_overrides_vector_store env.docker env.db_main_row cfg0
  cases hv : (merge_db_overrides env.docker env.db_main_row cfg0).vector_store with
  | none =>
    dsimp only
    by_cases hcache : (st.client == none
        || st.config_hash != some (merge_db_overrides env.docker env.db_main_row cfg0)) = true
    · rw [if_pos hcache, if_pos (hbuild _)]
      exact ⟨merge_db_overrides env.docker env.db_main_row cfg0, rfl, hv⟩
    · rw [if_neg hcache]
      have h2 : st.config_hash = some (merge_db_overrides env.docker env.db_main_row cfg0) := by
        simp only [Bool.or_eq_true, not_or, bne_iff_ne, ne_eq, Decidable.not_not] at hcache
        exact hcache.2
      exact ⟨merge_db_overrides env.docker env.db_main_row cfg0, by rw [hwf, h2], hv⟩
  | some qc =>
    dsimp only
    rw [if_neg (show ¬ (test_qdrant_connection env = true) by simp [htest])]
    by_cases hcache : (st.client == none
        || st.config_hash != some { merge_db_overrides env.docker env.db_main_row cfg0 with
              vector_store := none }) = true
    · rw [if_pos hcache, if_pos (hbuild _)]
      exact ⟨_, rfl, rfl⟩
    · rw [if_neg hcache]
      have h2 : st.config_hash = some { merge_db_overrides env.docker env.db_main_row cfg0 with
          vector_store := none } := by
        simp only [Bool.or_eq_true, not_or, bne_iff_ne, ne_eq, Decidable.not_not] at hcache
        exact hcache.2
      exact ⟨_, by rw [hwf, h2], rfl⟩

/-- Witness: with the default vector-capable configuration and a failing
probe, the client is built from the reset state in basic mode. -/
theorem client_probe_failure_basic_mode_inst :
    ∃ c, (get_memory_client clientEnvW resetClientState).2 = some c ∧
      c.vector_store = none :=
  client_probe_failure_basic_mode clientEnvW resetClientState rfl rfl
    { llm := { provider := "openai", config := some { ollama_base_url := none } },
      embedder := { provider := "openai", config := some { ollama_base_url := none } },
      vector_store := some (QdrantCfg.mk none none (some "mem0_store") (some 6333) "openmemory") }
    rfl (fun _ => rfl)

/-- C8: all four handlers reject a missing or empty accessor identity or
calling-application identity with a structured validation payload (an error
field, and success false where the payload carries success), before any write
to the store: the database is returned unchanged. -/
theorem handlers_require_identities (uid client_name : Option String)
    (h : str_falsy uid = true ∨ str_falsy client_name = true) :
    (∀ (text : String) (avail : Bool) (upk apk : Uuid) (act : Bool)
        (resp : Mem0Response) (gid : Uuid) (now : Nat) (db : Db),
      (add_memories uid client_name text avail upk apk act resp gid now db).1 = db ∧
      (add_memories uid client_name text avail upk apk act resp gid now db).2.success = false ∧
      (add_memories uid client_name text avail upk apk act resp gid now db).2.error.isSome = true) ∧
    (∀ (query : String) (avail : Bool) (upk apk : Uuid) (env : SearchEnv) (db : Db),
      (search_memory uid client_name query avail upk apk env db).1 = db ∧
      (search_memory uid client_name query avail upk apk env db).2.error.isSome = true ∧
      (search_memory uid client_name query avail upk apk env db).2.results = []) ∧
    (∀ (avail : Bool) (upk apk : Uuid) (resp : GetAllResp) (db : Db),
      (list_memories uid client_name avail upk apk resp db).1 = db ∧
      (list_memories uid client_name avail upk apk resp db).2.error.isSome = true ∧
      (list_memories uid client_name avail upk apk resp db).2.memories = []) ∧
    (∀ (avail : Bool) (upk apk : Uuid) (vok : Uuid → Bool) (now : Nat) (db : Db),
      (delete_all_memories uid client_name avail upk apk vok now db).1 = db ∧
      (delete_all_memories uid client_name avail upk apk vok now db).2.success = false ∧
      (delete_all_memories uid client_name avail upk apk vok now db).2.error.isSome = true) := by
  refine ⟨?_, ?_, ?_, ?_⟩
  · intro text avail upk apk act resp gid now db
    unfold add_memories
    by_cases h1 : str_falsy uid = true
    · rw [if_pos h1]
      exact ⟨rfl, rfl, rfl⟩
    · have h2 : str_falsy client_name = true := h.resolve_left h1
      rw [if_neg h1, if_pos h2]
      exact ⟨rfl, rfl, rfl⟩
  · intro query avail upk apk env db
    unfold search_memory
    by_cases h1 : str_falsy uid = true
    · rw [if_pos h1]
      exact ⟨rfl, rfl, rfl⟩
    · have h2 : str_falsy client_name = true := h.resolve_left h1
      rw [if_neg h1, if_pos h2]
      exact ⟨rfl, rfl, rfl⟩
  · intro avail upk apk resp db
    unfold list_memories
    by_cases h1 : str_falsy uid = true
    · rw [if_pos h1]
      exact ⟨rfl, rfl, rfl⟩
    · have h2 : str_falsy client_name = true := h.resolve_left h1
      rw [if_neg h1, if_pos h2]
      exact ⟨rfl, rfl, rfl⟩
  · intro avail upk apk vok now db
    unfold delete_all_memories
    by_cases h1 : str_falsy uid = true
    · rw [if_pos h1]
      exact ⟨rfl, rfl, rfl⟩
    · have h2 : str_falsy client_name = true := h.resolve_left h1
      rw [if_neg h1, if_pos h2]
      exact ⟨rfl, rfl, rfl⟩

/-- Witness: the validation rejection of all four handlers with the accessor
identity unset, at concrete arguments and a concrete store. -/
theorem handlers_require_identities_inst :
    ((add_memories none (some "app") "t" true 1 2 true (Mem0Response.results []) 0 0 dbAdd1).1 = dbAdd1 ∧
      (add_memories none (some "app") "t" true 1 2 true (Mem0Response.results []) 0 0 dbAdd1).2.success = false ∧
      (add_memories none (some "app") "t" true 1 2 true (Mem0Response.results []) 0 0 dbAdd1).2.error.isSome = true) ∧
    ((search_memory none (some "app") "q" true 1 2
        { primary := Except.ok PrimaryResult.otherShape, has_vector_attrs := false,
          secondary := Except.ok [] } dbAdd1).1 = dbAdd1 ∧
      (search_memory none (some "app") "q" true 1 2
        { primary := Except.ok PrimaryResult.otherShape, has_vector_attrs := false,
          secondary := Except.ok [] } dbAdd1).2.error.isSome = true ∧
      (search_memory none (some "app") "q" true 1 2
        { primary := Except.ok PrimaryResult.otherShape, has_vector_attrs := false,
          secondary := Except.ok [] } dbAdd1).2.results = []) ∧
    ((list_memories none (some "app") true 1 2 (GetAllResp.iterable []) dbAdd1).1 = dbAdd1 ∧
      (list_memories none (some "app") true 1 2 (GetAllResp.iterable []) dbAdd1).2.error.isSome = true ∧
      (list_memories none (some "app") true 1 2 (GetAllResp.iterable []) dbAdd1).2.memories = []) ∧
    ((delete_all_memories none (some "app") true 1 2 (fun _ => true) 0 dbAdd1).1 = dbAdd1 ∧
      (delete_all_memories none (some "app") true 1 2 (fun _ => true) 0 dbAdd1).2.success = false ∧
      (delete_all_memories none (some "app") true 1 2 (fun _ => true) 0 dbAdd1).2.error.isSome = true) := by
  have h := handlers_require_identities none (some "app") (Or.inl rfl)
  exact ⟨h.1 "t" true 1 2 true (Mem0Response.results []) 0 0 dbAdd1,
    h.2.1 "q" true 1 2 _ dbAdd1,
    h.2.2.1 true 1 2 (GetAllResp.iterable []) dbAdd1,
    h.2.2.2 true 1 2 (fun _ => true) 0 dbAdd1⟩

/-- C9 (counterexample): the OLLAMA_HOST override is consulted before the
Docker detection, so outside any Docker namespace a loopback address is still
rewritten when the override is set — refuting the claim that outside an
isolated namespace the address is left as localhost. -/
theorem override_rewrites_outside_docker :
    fix_ollama_urls
        { ollama_host := some "myhost", in_docker := false, hdi_resolvable := false,
          gateway := none }
        { provider := "ollama", config := some { ollama_base_url := some "http://localhost:11434" } }
      = { provider := "ollama",
          config := some { ollama_base_url := some "http://myhost:11434" } } ∧
    ({ provider := "ollama",
       config := some { ollama_base_url := some "http://myhost:11434" } } : ProviderSection)
      ≠ { provider := "ollama",
          config := some { ollama_base_url := some "http://localhost:11434" } } := by
  exact ⟨by decide, by decide⟩

/-- C9 (amended): inside Docker the chosen host follows exactly the ordered
fallback of the claim (override variable, else DNS alias when resolvable, else
default-route gateway, else 172.17.0.1), and a loopback url is rewritten with
that host whenever it is not localhost; but the override is consulted before
the Docker detection, so outside Docker the address is left as localhost only
when the override is unset, and a set override rewrites the address regardless
of the namespace. -/
theorem docker_host_ordered_fallback (e : DockerEnv) :
    (e.in_docker = true → get_docker_host_url e = ordered_fallback_host e) ∧
    (opt_truthy e.ollama_host = none → e.in_docker = false →
      get_docker_host_url e = "localhost") ∧
    (∀ h, opt_truthy e.ollama_host = some h →
      get_docker_host_url e = strip_host h) ∧
    (∀ (p : String) (url : String),
      (contains_sub url "localhost" || contains_sub url "127.0.0.1") = true →
      get_docker_host_url e ≠ "localhost" →
      fix_ollama_urls e { provider := p, config := some { ollama_base_url := some url } }
        = { provider := p,
            config := some (OllamaCfg.mk (some (py_replace (py_replace url "localhost" (get_docker_host_url e)) "127.0.0.1" (get_docker_host_url e)))) }) := by
  refine ⟨?_, ?_, ?_, ?_⟩
  · intro hd
    unfold get_docker_host_url ordered_fallback_host
    cases ho : opt_truthy e.ollama_host with
    | some h => rfl
    | none =>
      rw [hd]
      cases hh : e.hdi_resolvable with
      | true => cases hg : e.gateway with
        | none => rfl
        | some gw => rfl
      | false => cases hg : e.gateway with
        | none => rfl
        | some gw => rfl
  · intro ho hd
    unfold get_docker_host_url
    rw [ho, hd]
    rfl
  · intro h ho
    unfold get_docker_host_url
    rw [ho]
  · intro p url hloop hhost
    unfold fix_ollama_urls
    dsimp only
    rw [if_pos hloop, if_pos (by simpa using hhost)]

/-- Witness: the ordered fallback instantiated inside Docker with no override,
an unresolvable DNS alias and a readable gateway, together with the rewriting
of a loopback url by that gateway host. -/
theorem docker_host_ordered_fallback_inst :
    (true = true →
      get_docker_host_url
          { ollama_host := none, in_docker := true, hdi_resolvable := false,
            gateway := some "172.20.0.1" }
        = ordered_fallback_host
            { ollama_host := none, in_docker := true, hdi_resolvable := false,
              gateway := some "172.20.0.1" }) ∧
    (opt_truthy (none : Option String) = none → true = false →
      get_docker_host_url
          { ollama_host := none, in_docker := true, hdi_resolvable := false,
            gateway := some "172.20.0.1" }
        = "localhost") ∧
    (∀ h, opt_truthy (none : Option String) = some h →
      get_docker_host_url
          { ollama_host := none, in_docker := true, hdi_resolvable := false,
            gateway := some "172.20.0.1" }
        = strip_host h) ∧
    (∀ (p : String) (url : String),
      (contains_sub url "localhost" || contains_sub url "127.0.0.1") = true →
      get_docker_host_url
          { ollama_host := none, in_docker := true, hdi_resolvable := false,
            gateway := some "172.20.0.1" } ≠ "localhost" →
      fix_ollama_urls
          { ollama_host := none, in_docker := true, hdi_resolvable := false,
            gateway := some "172.20.0.1" }
          { provider := p, config := some { ollama_base_url := some url } }
        = { provider := p,
            config := some (OllamaCfg.mk (some (py_replace (py_replace url "localhost" (get_docker_host_url (DockerEnv.mk none true false (some "172.20.0.1")))) "127.0.0.1" (get_docker_host_url (DockerEnv.mk none true false (some "172.20.0.1")))))) }) :=
  docker_host_ordered_fallback
    { ollama_host := none, in_docker := true, hdi_resolvable := false,
      gateway := some "172.20.0.1" }

/-- The response of search_memory falls into one of four shapes: a payload
without a count, a primary-path payload, a direct-qdrant payload, or the empty
fallback payload. -/
theorem search_memory_response_cases (uid client_name : Option String)
    (query : String) (avail : Bool) (upk apk : Uuid) (env : SearchEnv) (db : Db) :
    ((search_memory uid client_name query avail upk apk env db).2.count = none) ∨
    (∃ hits : List SearchHit,
      (search_memory uid client_name query avail upk apk env db).2.results
        = hits.map SResult.fromClient ∧
      (search_memory uid client_name query avail upk apk env db).2.count
        = some hits.length) ∨
    (∃ pts : List QdrantEntry,
      (search_memory uid client_name query avail upk apk env db).2.results
        = pts.map SResult.fromQdrant ∧
      (search_memory uid client_name query avail upk apk env db).2.count
        = some pts.length) ∨
    ((search_memory uid client_name query avail upk apk env db).2.results = [] ∧
      (search_memory uid client_name query avail upk apk env db).2.count = some 0) := by
  unfold search_memory
  by_cases h1 : str_falsy uid = true
  · rw [if_pos h1]; exact Or.inl rfl
  · rw [if_neg h1]
    by_cases h2 : str_falsy client_name = true
    · rw [if_pos h2]; exact Or.inl rfl
    · rw [if_neg h2]
      by_cases h3 : blank_string query = true
      · rw [if_pos h3]; exact Or.inl rfl
      · rw [if_neg h3]
        by_cases h4 : (!avail) = true
        · rw [if_pos h4]; exact Or.inl rfl
        · rw [if_neg h4]
          cases hp : env.primary with
          | ok pr =>
            dsimp only
            cases pr with
            | dictResults hits => exact Or.inr (Or.inl ⟨hits, rfl, rfl⟩)
            | listShape hits => exact Or.inr (Or.inl ⟨hits, rfl, rfl⟩)
            | otherShape => exact Or.inr (Or.inl ⟨[], rfl, rfl⟩)
          | error e =>
            dsimp only
            by_cases hv : env.has_vector_attrs = true
            · rw [if_pos hv]
              cases hs : env.secondary with
              | ok pts => exact Or.inr (Or.inr (Or.inl ⟨pts, rfl, rfl⟩))
              | error e2 => exact Or.inr (Or.inr (Or.inr ⟨rfl, rfl⟩))
            · rw [if_neg hv]
              exact Or.inr (Or.inr (Or.inr ⟨rfl, rfl⟩))

/-- C10: in every branch of search_memory whose payload carries a count, the
count equals the length of the returned results array. -/
theorem search_count_eq_results_length (uid client_name : Option String)
    (query : String) (avail : Bool) (upk apk : Uuid) (env : SearchEnv) (db : Db)
    (n : Nat)
    (h : (search_memory uid client_name query avail upk apk env db).2.count = some n) :
    (search_memory uid client_name query avail upk apk env db).2.results.length = n := by
  rcases search_memory_response_cases uid client_name query avail upk apk env db with
    hnone | ⟨hits, hres, hcount⟩ | ⟨pts, hres, hcount⟩ | ⟨hres, hcount⟩
  · rw [hnone] at h; exact Option.noConfusion h
  · rw [hcount] at h
    rw [hres, List.length_map]
    exact Option.some_inj.mp h
  · rw [hcount] at h
    rw [hres, List.length_map]
    exact Option.some_inj.mp h
  · rw [hcount] at h
    rw [hres, ← Option.some_inj.mp h]
    rfl

/-- Witness: the count of a primary-path response with two hits equals the
length of its results array. -/
theorem search_count_eq_results_length_inst :
    (search_memory (some "u") (some "app") "tea" true 1 2
      { primary := Except.ok (PrimaryResult.dictResults
          [{ isDict := true, idField := some (some 5), score := some 3 },
           { isDict := false, idField := none, score := none }]),
        has_vector_attrs := true, secondary := Except.ok [] } dbAdd1).2.results.length = 2 :=
  search_count_eq_results_length (some "u") (some "app") "tea" true 1 2
    { primary := Except.ok (PrimaryResult.dictResults
        [{ isDict := true, idField := some (some 5), score := some 3 },
         { isDict := false, idField := none, score := none }]),
      has_vector_attrs := true, secondary := Except.ok [] } dbAdd1 2 (by decide)
